import Mathlib

/-!
Verification of the `OmegaRTC` connection manager and the wire codec of
`src/index.ts` (cloudlink-omega/scratch3-webrtc), as a shallow embedding.

JavaScript `Map` objects keyed by peer id are modelled as association
lists in insertion order (`JMap`); native `RTCPeerConnection` handles are
modelled as numeric identities drawn from a fresh counter; event firing
is modelled as a trace of fired event names (the callbacks themselves
are external); the native engine's callbacks (`onicecandidate`,
`onconnectionstatechange`, `ondatachannel`, channel `onmessage` /
`onopen` / `onclose`) are modelled as explicit state transitions.
-/

/-- Association-list model of a JavaScript `Map` with string keys:
entries kept in insertion order; reachable states have unique keys. -/
abbrev JMap (α : Type) : Type := List (String × α)

/-- Model of `Map.prototype.get`: the value at the first matching key. -/
def jget {α : Type} : JMap α → String → Option α
  | [], _ => none
  | (k, v) :: rest, key => if k = key then some v else jget rest key

/-- Model of `Map.prototype.has`. -/
def jhas {α : Type} (m : JMap α) (key : String) : Bool :=
  (jget m key).isSome

/-- Model of `Map.prototype.set`: replaces the value in place when the
key exists, otherwise appends a new entry at the end. -/
def jset {α : Type} : JMap α → String → α → JMap α
  | [], key, v => [(key, v)]
  | (k, w) :: rest, key, v =>
      if k = key then (key, v) :: rest else (k, w) :: jset rest key v

/-- Model of `Map.prototype.delete` on unique-key maps: removes the
entry with the given key. -/
def jdel {α : Type} (m : JMap α) (key : String) : JMap α :=
  m.filter (fun p => decide (p.1 ≠ key))

/-- Updates the value at `key` in place when present; models the
`m.get(key).mutate(...)` pattern used on the inner maps and candidate
arrays (on states where the key is absent the original code would fault
on `undefined`; such states are unreachable, see `DataKeysSynced`). -/
def jupdate {α : Type} (m : JMap α) (key : String) (f : α → α) : JMap α :=
  match jget m key with
  | some v => jset m key (f v)
  | none => m

/-- Key list of a map, in entry order. -/
def jkeys {α : Type} (m : JMap α) : List String := m.map Prod.fst

/-- Opaque model of an `RTCIceCandidate` descriptor. -/
abbrev IceCand : Type := String

/-- Model of an `RTCDataChannel` as created by the manager: the label
and the option bag passed to `conn.createDataChannel`. -/
structure Channel where
  label : String
  negotiated : Bool
  chanId : Option Nat
  ordered : Bool
  protocol : Option String
  deriving DecidableEq

/-- Model of the `Configuration` interface (the static `iceServers`
list is irrelevant to the managed state and omitted). -/
structure Configuration where
  iceTransportPolicy : String
  supportsTrickleIce : Bool
  deriving DecidableEq

/-- ICE gathering state of a native connection, as reported through
`conn.iceGatheringState` inside the `onicecandidate` handler. -/
inductive GatheringState where
  | gathNew
  | gathering
  | complete
  deriving DecidableEq

/-- Connection state of a native connection, as reported through
`conn.connectionState` inside the `onconnectionstatechange` handler. -/
inductive ConnState where
  | csNew
  | connecting
  | connected
  | closed
  | failed
  | disconnected
  deriving DecidableEq

/-- Registry state of the `OmegaRTC` class: the nine per-peer maps plus
the configuration. `nextHandle` supplies fresh identities for native
`PeerConnection` objects; `firedEvents` is the trace of `fire`
invocations (the registered callbacks are external to the registry). -/
structure OmegaRTC where
  dataConnections : JMap Nat
  dataChannels : JMap (JMap Channel)
  dataStorage : JMap (JMap String)
  dataIceCandidates : JMap (List IceCand)
  dataIceDone : JMap Bool
  voiceConnections : JMap Nat
  voiceStreams : JMap (List Nat)
  voiceIceCandidates : JMap (List IceCand)
  voiceIceDone : JMap Bool
  configuration : Configuration
  nextHandle : Nat
  firedEvents : List String
  deriving DecidableEq

namespace OmegaRTC

/-- State built by the `OmegaRTC` constructor: every map empty, trickle
ICE off, transport policy `all`. -/
def initState : OmegaRTC :=
  { dataConnections := []
    dataChannels := []
    dataStorage := []
    dataIceCandidates := []
    dataIceDone := []
    voiceConnections := []
    voiceStreams := []
    voiceIceCandidates := []
    voiceIceDone := []
    configuration := { iceTransportPolicy := "all", supportsTrickleIce := false }
    nextHandle := 0
    firedEvents := [] }

/-- Model of `fire(eventName, ...)`: records that the event was raised
(invoking the registered callbacks is outside the registry state). -/
def fire (st : OmegaRTC) (eventName : String) : OmegaRTC :=
  { st with firedEvents := st.firedEvents ++ [eventName] }

/-- Model of `doneGatheringIce`: `this.dataIceDone.get(id)` yields
`undefined` (falsy) when the key is absent, modelled by `getD false`. -/
def doneGatheringIce (st : OmegaRTC) (id : String) : Bool :=
  if ¬ jhas st.dataConnections id then false
  else (jget st.dataIceDone id).getD false

/-- Model of `allIceCandidates(id, mode)`. -/
def allIceCandidates (st : OmegaRTC) (id : String) (mode : Int) :
    List IceCand :=
  if mode = 0 then
    if ¬ jhas st.dataConnections id then []
    else if ¬ (jget st.dataIceDone id).getD false then []
    else (jget st.dataIceCandidates id).getD []
  else if mode = 1 then
    if ¬ jhas st.voiceConnections id then []
    else if ¬ (jget st.voiceIceDone id).getD false then []
    else (jget st.voiceIceCandidates id).getD []
  else []

/-- Model of `getPeers`. -/
def getPeers (st : OmegaRTC) : List String :=
  jkeys st.dataConnections

/-- Model of `getPeerChannels`. -/
def getPeerChannels (st : OmegaRTC) (id : String) : List String :=
  if ¬ jhas st.dataChannels id then []
  else jkeys ((jget st.dataChannels id).getD [])

/-- Model of `doesPeerChannelExist`. -/
def doesPeerChannelExist (st : OmegaRTC) (id label : String) : Bool :=
  if ¬ jhas st.dataChannels id then false
  else jhas ((jget st.dataChannels id).getD []) label

/-- Model of `closeChannel(id, label)`: closes the native channel (no
registry effect) and removes the label from the channel map and the
payload cache. -/
def closeChannel (st : OmegaRTC) (id label : String) : OmegaRTC :=
  if ¬ jhas st.dataChannels id then st
  else if ¬ jhas ((jget st.dataChannels id).getD []) label then st
  else
    { st with
      dataChannels := jupdate st.dataChannels id (fun inner => jdel inner label)
      dataStorage := jupdate st.dataStorage id (fun inner => jdel inner label) }

/-- Model of `handleDataChannel(chan, label, id)`: stores the channel in
the per-peer channel map. The `onmessage` / `onopen` / `onclose`
handlers it installs are modelled by `onChannelMessage`,
`onChannelOpen` and `onChannelClose` below. -/
def handleDataChannel (st : OmegaRTC) (chan : Channel) (label id : String) :
    OmegaRTC :=
  { st with
    dataChannels := jupdate st.dataChannels id (fun inner => jset inner label chan) }

/-- The reserved channel created at data-connection creation:
`conn.createDataChannel('default', { negotiated: true, id: 0, ordered: true })`. -/
def defaultChannel : Channel :=
  { label := "default"
    negotiated := true
    chanId := some 0
    ordered := true
    protocol := none }

/-- Model of `getDataConnection(id)`: returns the existing connection
unchanged, or creates one (fresh native handle), initialises the four
auxiliary maps, and registers the `default` channel via
`handleDataChannel`. The `onicecandidate`, `onconnectionstatechange`
and `ondatachannel` closures it installs are modelled by
`onDataIceCandidate`, `onDataConnectionStateChange` and
`onInbandDataChannel`. -/
def getDataConnection (st : OmegaRTC) (id : String) : Nat × OmegaRTC :=
  if jhas st.dataConnections id then
    ((jget st.dataConnections id).getD 0, st)
  else
    let handle := st.nextHandle
    let st1 := { st with
      dataConnections := jset st.dataConnections id handle
      nextHandle := st.nextHandle + 1
      dataIceCandidates := jset st.dataIceCandidates id []
      dataIceDone := jset st.dataIceDone id false
      dataStorage := jset st.dataStorage id []
      dataChannels := jset st.dataChannels id [] }
    (handle, handleDataChannel st1 defaultChannel "default" id)

/-- Model of `closeDataConnection(id)`: closing the native channels and
connection affects only native handles; the registry effect is the
deletion of the id from all five data maps. -/
def closeDataConnection (st : OmegaRTC) (id : String) : OmegaRTC :=
  { st with
    dataConnections := jdel st.dataConnections id
    dataChannels := jdel st.dataChannels id
    dataStorage := jdel st.dataStorage id
    dataIceCandidates := jdel st.dataIceCandidates id
    dataIceDone := jdel st.dataIceDone id }

/-- Model of `closeVoiceConnection(id)`: stopping tracks, closing the
native handle and detaching audio elements affect only native state;
the registry effect is the deletion of the id from the four voice maps. -/
def closeVoiceConnection (st : OmegaRTC) (id : String) : OmegaRTC :=
  { st with
    voiceConnections := jdel st.voiceConnections id
    voiceIceCandidates := jdel st.voiceIceCandidates id
    voiceStreams := jdel st.voiceStreams id
    voiceIceDone := jdel st.voiceIceDone id }

/-- Model of the `onicecandidate` closure installed by
`getDataConnection`: appends a discovered candidate, fires `{id}_ice`
per candidate while gathering when trickle ICE is enabled, and on
completion fires `{id}_ice-done` and flips `dataIceDone` to true. -/
def onDataIceCandidate (st : OmegaRTC) (id : String) (cand : Option IceCand)
    (gs : GatheringState) : OmegaRTC :=
  let st1 := match cand with
    | some c =>
        { st with dataIceCandidates :=
            jupdate st.dataIceCandidates id (fun l => l ++ [c]) }
    | none => st
  match gs with
  | .gathering =>
      if st1.configuration.supportsTrickleIce then fire st1 (id ++ "_ice")
      else st1
  | .complete =>
      let st2 := fire st1 (id ++ "_ice-done")
      { st2 with dataIceDone := jset st2.dataIceDone id true }
  | .gathNew => st1

/-- Model of the `onconnectionstatechange` closure installed by
`getDataConnection`: fires `{id}_connected` on `connected`; on `closed`
or `failed` runs `closeDataConnection` and fires `{id}_closed`. -/
def onDataConnectionStateChange (st : OmegaRTC) (id : String)
    (cs : ConnState) : OmegaRTC :=
  match cs with
  | .connected => fire st (id ++ "_connected")
  | .closed => fire (closeDataConnection st id) (id ++ "_closed")
  | .failed => fire (closeDataConnection st id) (id ++ "_closed")
  | _ => st

/-- Model of the `ondatachannel` closure installed by
`getDataConnection`: registers an in-band channel announced by the
remote peer under its own label. -/
def onInbandDataChannel (st : OmegaRTC) (id : String) (chan : Channel) :
    OmegaRTC :=
  handleDataChannel st chan chan.label id

/-- Model of the channel `onmessage` handler installed by
`handleDataChannel`: overwrites the payload cache for the label, then
fires `{id}_message`. -/
def onChannelMessage (st : OmegaRTC) (id label payload : String) : OmegaRTC :=
  fire
    { st with dataStorage :=
        jupdate st.dataStorage id (fun inner => jset inner label payload) }
    (id ++ "_message")

/-- Model of the channel `onopen` handler installed by
`handleDataChannel`. -/
def onChannelOpen (st : OmegaRTC) (id label : String) : OmegaRTC :=
  fire st (id ++ "_channel-open")

/-- Model of the channel `onclose` handler installed by
`handleDataChannel`: fires `{id}_channel-close`; when the `default`
channel closes it also runs `closeDataConnection` and fires
`{id}_closed`. -/
def onChannelClose (st : OmegaRTC) (id label : String) : OmegaRTC :=
  let st1 := fire st (id ++ "_channel-close")
  if label = "default" then
    fire (closeDataConnection st1 id) (id ++ "_closed")
  else st1

/-- Model of `getChannelData(id, label)`. -/
def getChannelData (st : OmegaRTC) (id label : String) : Option String :=
  match jget st.dataStorage id with
  | none => none
  | some inner => jget inner label

/-- Model of `sendData(id, label, data, wait)`: the returned flag
records whether `chan.send(data)` was reached (the send itself and the
buffered-amount wait touch only the native channel). -/
def sendData (st : OmegaRTC) (id label data : String) (wait : Bool) :
    OmegaRTC × Bool :=
  if ¬ jhas st.dataChannels id then (st, false)
  else if ¬ jhas ((jget st.dataChannels id).getD []) label then (st, false)
  else (st, true)

/-- Model of `createDataChannel(id, label, ordered)`: returns nothing if
the connection id is unknown; otherwise creates the native channel with
`{ negotiated: false, ordered, protocol: 'clomega' }` and returns it.
Note that the source stores nothing in `dataChannels` here (it does not
call `handleDataChannel`), so the registry state is unchanged. -/
def createDataChannel (st : OmegaRTC) (id label : String) (ordered : Bool) :
    Option Channel × OmegaRTC :=
  if ¬ jhas st.dataConnections id then (none, st)
  else
    (some { label := label
            negotiated := false
            chanId := none
            ordered := ordered
            protocol := some "clomega" }, st)

/-- Model of `setupVoiceConnection(id)`: acquiring the microphone and
adding tracks touches only native state; on failure (`micOk = false`)
the catch handler runs `closeVoiceConnection(id)`. -/
def setupVoiceConnection (st : OmegaRTC) (id : String) (micOk : Bool) :
    OmegaRTC :=
  if micOk then st else closeVoiceConnection st id

/-- Model of `getVoiceConnection(id, setup)`: returns the existing
connection unchanged, or creates one and initialises the three
auxiliary voice maps; when `setup` is true it then runs
`setupVoiceConnection`, whose microphone acquisition outcome is the
extra `micOk` input. The installed `onicecandidate`,
`onconnectionstatechange` and `ontrack` closures are modelled by
`onVoiceIceCandidate`, `onVoiceConnectionStateChange` and
`onVoiceTrack`. -/
def getVoiceConnection (st : OmegaRTC) (id : String) (setup micOk : Bool) :
    Nat × OmegaRTC :=
  if jhas st.voiceConnections id then
    ((jget st.voiceConnections id).getD 0, st)
  else
    let handle := st.nextHandle
    let st1 := { st with
      voiceConnections := jset st.voiceConnections id handle
      nextHandle := st.nextHandle + 1
      voiceIceCandidates := jset st.voiceIceCandidates id []
      voiceIceDone := jset st.voiceIceDone id false
      voiceStreams := jset st.voiceStreams id [] }
    if setup then (handle, setupVoiceConnection st1 id micOk)
    else (handle, st1)

/-- Model of the `onicecandidate` closure installed by
`getVoiceConnection`: appends a discovered candidate and flips
`voiceIceDone` on completion (no events are fired for voice). -/
def onVoiceIceCandidate (st : OmegaRTC) (id : String) (cand : Option IceCand)
    (gs : GatheringState) : OmegaRTC :=
  let st1 := match cand with
    | some c =>
        { st with voiceIceCandidates :=
            jupdate st.voiceIceCandidates id (fun l => l ++ [c]) }
    | none => st
  if gs = .complete then
    { st1 with voiceIceDone := jset st1.voiceIceDone id true }
  else st1

/-- Model of the `onconnectionstatechange` closure installed by
`getVoiceConnection`: on `closed` or `failed` runs
`closeVoiceConnection` (no event is fired for voice). -/
def onVoiceConnectionStateChange (st : OmegaRTC) (id : String)
    (cs : ConnState) : OmegaRTC :=
  match cs with
  | .closed => closeVoiceConnection st id
  | .failed => closeVoiceConnection st id
  | _ => st

/-- Model of the `ontrack` closure installed by `getVoiceConnection`:
appends the event's streams to `voiceStreams` (audio elements are
native DOM state). -/
def onVoiceTrack (st : OmegaRTC) (id : String) (streams : List Nat) :
    OmegaRTC :=
  { st with voiceStreams :=
      jupdate st.voiceStreams id (fun l => l ++ streams) }

/-- Model of `getConnectionObject(id, mode, setup?)`: mode 0 is data,
mode 1 is voice (requiring the `setup` flag, with `micOk` the
microphone outcome threaded to `getVoiceConnection`); any other mode
throws. -/
def getConnectionObject (st : OmegaRTC) (id : String) (mode : Int)
    (setup : Option Bool) (micOk : Bool) : Except String (Nat × OmegaRTC) :=
  if mode = 0 then .ok (getDataConnection st id)
  else if mode = 1 then
    match setup with
    | none => .error "Missing setup parameter for voice connection."
    | some s => .ok (getVoiceConnection st id s micOk)
  else .error "Invalid connection mode."

/-- Model of `handleAnswer(id, mode, answer)`: obtains the connection
via `getConnectionObject` with `setup` undefined; the subsequent
`setRemoteDescription` call touches only the native handle (and any
rejection is caught), and a thrown `getConnectionObject` error is
caught and logged, leaving the state unchanged. -/
def handleAnswer (st : OmegaRTC) (id : String) (mode : Int) : OmegaRTC :=
  match getConnectionObject st id mode none false with
  | .ok (_, st') => st'
  | .error _ => st

/-- Model of the registry effect of `createOffer(id, name, mode,
setup?)`: the connection is obtained or created via
`getConnectionObject`; description creation touches only the native
handle and errors are caught and logged. -/
def createOffer (st : OmegaRTC) (id : String) (mode : Int)
    (setup : Option Bool) (micOk : Bool) : OmegaRTC :=
  match getConnectionObject st id mode setup micOk with
  | .ok (_, st') => st'
  | .error _ => st

/-- Model of the registry effect of `createAnswer(id, name, mode, offer,
setup?)`: identical to `createOffer` on the registry. -/
def createAnswer (st : OmegaRTC) (id : String) (mode : Int)
    (setup : Option Bool) (micOk : Bool) : OmegaRTC :=
  match getConnectionObject st id mode setup micOk with
  | .ok (_, st') => st'
  | .error _ => st

/-- Model of the registry effect of `handleIceCandidate(id, mode,
candidate, setup?)`: identical to `createOffer` on the registry
(`addIceCandidate` touches only the native handle). -/
def handleIceCandidate (st : OmegaRTC) (id : String) (mode : Int)
    (setup : Option Bool) (micOk : Bool) : OmegaRTC :=
  match getConnectionObject st id mode setup micOk with
  | .ok (_, st') => st'
  | .error _ => st

end OmegaRTC

namespace OmegaRTC

/-- One registry operation: every method and native-engine callback of
`OmegaRTC` that can touch the registry maps. -/
inductive Op where
  | opGetData (id : String)
  | opGetVoice (id : String) (setup micOk : Bool)
  | opCloseData (id : String)
  | opCloseVoice (id : String)
  | opCloseChannel (id label : String)
  | opCreateChannel (id label : String) (ordered : Bool)
  | opSendData (id label data : String) (wait : Bool)
  | opHandleAnswer (id : String) (mode : Int)
  | opCreateOffer (id : String) (mode : Int) (setup : Option Bool) (micOk : Bool)
  | opCreateAnswer (id : String) (mode : Int) (setup : Option Bool) (micOk : Bool)
  | opHandleIce (id : String) (mode : Int) (setup : Option Bool) (micOk : Bool)
  | opDataIce (id : String) (cand : Option IceCand) (gs : GatheringState)
  | opVoiceIce (id : String) (cand : Option IceCand) (gs : GatheringState)
  | opDataConnState (id : String) (cs : ConnState)
  | opVoiceConnState (id : String) (cs : ConnState)
  | opInbandChannel (id : String) (chan : Channel)
  | opChannelMessage (id label payload : String)
  | opChannelOpen (id label : String)
  | opChannelClose (id label : String)
  | opVoiceTrack (id : String) (streams : List Nat)
  deriving DecidableEq

/-- The registry state reached by running one operation. -/
def step (op : Op) (st : OmegaRTC) : OmegaRTC :=
  match op with
  | .opGetData id => (getDataConnection st id).2
  | .opGetVoice id setup micOk => (getVoiceConnection st id setup micOk).2
  | .opCloseData id => closeDataConnection st id
  | .opCloseVoice id => closeVoiceConnection st id
  | .opCloseChannel id label => closeChannel st id label
  | .opCreateChannel id label ordered => (createDataChannel st id label ordered).2
  | .opSendData id label data wait => (sendData st id label data wait).1
  | .opHandleAnswer id mode => handleAnswer st id mode
  | .opCreateOffer id mode setup micOk => createOffer st id mode setup micOk
  | .opCreateAnswer id mode setup micOk => createAnswer st id mode setup micOk
  | .opHandleIce id mode setup micOk => handleIceCandidate st id mode setup micOk
  | .opDataIce id cand gs => onDataIceCandidate st id cand gs
  | .opVoiceIce id cand gs => onVoiceIceCandidate st id cand gs
  | .opDataConnState id cs => onDataConnectionStateChange st id cs
  | .opVoiceConnState id cs => onVoiceConnectionStateChange st id cs
  | .opInbandChannel id chan => onInbandDataChannel st id chan
  | .opChannelMessage id label payload => onChannelMessage st id label payload
  | .opChannelOpen id label => onChannelOpen st id label
  | .opChannelClose id label => onChannelClose st id label
  | .opVoiceTrack id streams => onVoiceTrack st id streams

/-- The five data-mode maps carry exactly the same keys, in the same
entry order. -/
def DataKeysSynced (st : OmegaRTC) : Prop :=
  jkeys st.dataChannels = jkeys st.dataConnections ∧
  jkeys st.dataStorage = jkeys st.dataConnections ∧
  jkeys st.dataIceCandidates = jkeys st.dataConnections ∧
  jkeys st.dataIceDone = jkeys st.dataConnections

instance (st : OmegaRTC) : Decidable (DataKeysSynced st) := by
  unfold DataKeysSynced
  infer_instance

/-- Key lists of both connection registries are duplicate-free: at most
one connection per (mode, id). -/
def UniqueKeys (st : OmegaRTC) : Prop :=
  (jkeys st.dataConnections).Nodup ∧ (jkeys st.voiceConnections).Nodup

instance (st : OmegaRTC) : Decidable (UniqueKeys st) := by
  unfold UniqueKeys
  infer_instance

end OmegaRTC

namespace OmegaRTC

/-- Side condition under which the native engine can deliver a callback
for a connection: `onicecandidate` only fires on a connection that has
not been closed, i.e. one still present in the registry. The ordinary
registry methods need no side condition. -/
def OpDelivers (op : Op) (st : OmegaRTC) : Prop :=
  match op with
  | .opDataIce id _ _ => jhas st.dataConnections id = true
  | _ => True

end OmegaRTC

/-!
Wire codec of the extension (`getOffer` / `getAnswer` / `getIce` /
`handleAnswer` / `handleIce`): Base64 over `JSON.stringify`, decoded
with `JSON.parse` after `atob`. Strings are modelled as `List Char` of
UTF-16 code units; `btoa` reads each code unit as a byte and throws on
units above 255, hence the encoders return `Option`. The parsers model
`JSON.parse` on the whitespace-free texts that `JSON.stringify` emits
for the two wire shapes (a session description object and a candidate
array). -/

/-- Model of an `RTCSessionDescriptionInit` as exchanged on the wire:
a `type` field (named `descType` here, `type` being reserved) and an
`sdp` field. -/
structure SessionDesc where
  descType : String
  sdp : String
  deriving DecidableEq

/-- Model of the JSON form of an `RTCIceCandidate` (the fields of its
`toJSON` dictionary, in WebIDL order). -/
structure CandInit where
  candidate : String
  sdpMid : Option String
  sdpMLineIndex : Option Int
  usernameFragment : Option String
  deriving DecidableEq

/-- JSON escaping of one string character, as `JSON.stringify` emits
it: the two-character escapes for quote, backslash and the named
control characters, `\u00xx` for other control characters, and the
character itself otherwise. -/
def escChar (c : Char) : List Char :=
  if c = '"' then ['\\', '"']
  else if c = '\\' then ['\\', '\\']
  else if c = Char.ofNat 8 then ['\\', 'b']
  else if c = Char.ofNat 9 then ['\\', 't']
  else if c = Char.ofNat 10 then ['\\', 'n']
  else if c = Char.ofNat 12 then ['\\', 'f']
  else if c = Char.ofNat 13 then ['\\', 'r']
  else if c.toNat < 32 then
    ['\\', 'u', '0', '0', Nat.digitChar (c.toNat / 16),
      Nat.digitChar (c.toNat % 16)]
  else [c]

/-- JSON escaping of a character sequence. -/
def escString : List Char → List Char
  | [] => []
  | c :: cs => escChar c ++ escString cs

/-- JSON string literal for `s`: quotes around the escaped content. -/
def jsonQuote (s : String) : List Char :=
  '"' :: escString s.data ++ ['"']

/-- Decimal digits of a natural number, most significant first. -/
def natDigits (n : Nat) : List Char :=
  if h : n < 10 then [Nat.digitChar n]
  else natDigits (n / 10) ++ [Nat.digitChar (n % 10)]
decreasing_by exact Nat.div_lt_self (by omega) (by omega)

/-- Decimal notation of an integer, as `JSON.stringify` prints an
integral number. -/
def intDigits (n : Int) : List Char :=
  if n < 0 then '-' :: natDigits n.natAbs else natDigits n.toNat

/-- JSON text for a nullable string field value. -/
def jsonOptStr : Option String → List Char
  | none => ['n', 'u', 'l', 'l']
  | some s => jsonQuote s

/-- JSON text for a nullable integer field value. -/
def jsonOptInt : Option Int → List Char
  | none => ['n', 'u', 'l', 'l']
  | some n => intDigits n

/-- `JSON.stringify` output for a session description (browser field
order: `type`, then `sdp`). -/
def stringifyDesc (d : SessionDesc) : List Char :=
  '{' :: jsonQuote "type" ++ ':' :: jsonQuote d.descType ++
    ',' :: jsonQuote "sdp" ++ ':' :: jsonQuote d.sdp ++ ['}']

/-- `JSON.stringify` output for one candidate object. -/
def stringifyCand (c : CandInit) : List Char :=
  '{' :: jsonQuote "candidate" ++ ':' :: jsonQuote c.candidate ++
    ',' :: jsonQuote "sdpMid" ++ ':' :: jsonOptStr c.sdpMid ++
    ',' :: jsonQuote "sdpMLineIndex" ++ ':' :: jsonOptInt c.sdpMLineIndex ++
    ',' :: jsonQuote "usernameFragment" ++ ':' ::
      jsonOptStr c.usernameFragment ++ ['}']

/-- Tail of the `JSON.stringify` output for a candidate array (the
comma-separated items after the first). -/
def stringifyCandsRest : List CandInit → List Char
  | [] => []
  | c :: cs => ',' :: stringifyCand c ++ stringifyCandsRest cs

/-- `JSON.stringify` output for a candidate array. -/
def stringifyCands : List CandInit → List Char
  | [] => ['[', ']']
  | c :: cs => '[' :: stringifyCand c ++ stringifyCandsRest cs ++ [']']

/-- Value of one hexadecimal digit, as `JSON.parse` reads `\uXXXX`. -/
def hexVal (c : Char) : Option Nat :=
  if '0' ≤ c ∧ c ≤ '9' then some (c.toNat - 48)
  else if 'a' ≤ c ∧ c ≤ 'f' then some (c.toNat - 87)
  else if 'A' ≤ c ∧ c ≤ 'F' then some (c.toNat - 55)
  else none

/-- The character denoted by a two-character JSON escape. -/
def unescapeCode (c : Char) : Option Char :=
  if c = '"' then some '"'
  else if c = '\\' then some '\\'
  else if c = '/' then some '/'
  else if c = 'b' then some (Char.ofNat 8)
  else if c = 't' then some (Char.ofNat 9)
  else if c = 'n' then some (Char.ofNat 10)
  else if c = 'f' then some (Char.ofNat 12)
  else if c = 'r' then some (Char.ofNat 13)
  else none

/-- Parses a JSON string body (after the opening quote) up to and over
the closing quote, as `JSON.parse` does: handles the two-character
escapes, `\uXXXX`, rejects raw control characters, and returns the
decoded content plus the remaining input. -/
def parseStrBody (cs : List Char) : Option (List Char × List Char) :=
  match cs with
  | [] => none
  | c :: cs1 =>
    if c = '"' then some ([], cs1)
    else if c = '\\' then
      match cs1 with
      | [] => none
      | e :: cs2 =>
        if e = 'u' then
          match cs2 with
          | h1 :: h2 :: h3 :: h4 :: cs3 =>
            match hexVal h1, hexVal h2, hexVal h3, hexVal h4,
                parseStrBody cs3 with
            | some a, some b, some g, some d, some (s, rest) =>
                some (Char.ofNat (((a * 16 + b) * 16 + g) * 16 + d) :: s,
                  rest)
            | _, _, _, _, _ => none
          | _ => none
        else
          match unescapeCode e, parseStrBody cs2 with
          | some u, some (s, rest) => some (u :: s, rest)
          | _, _ => none
    else if c.toNat < 32 then none
    else
      match parseStrBody cs1 with
      | some (s, rest) => some (c :: s, rest)
      | none => none
termination_by cs.length

/-- Parses a JSON string literal (with its quotes). -/
def parseJString (cs : List Char) : Option (String × List Char) :=
  match cs with
  | [] => none
  | c :: cs1 =>
    if c = '"' then
      match parseStrBody cs1 with
      | some (s, rest) => some (String.mk s, rest)
      | none => none
    else none

/-- Consumes the longest digit prefix, accumulating its decimal value
onto `acc`. -/
def digitsToNatAux : List Char → Nat → Nat × List Char
  | [], acc => (acc, [])
  | c :: cs, acc =>
    if c.isDigit then digitsToNatAux cs (acc * 10 + (c.toNat - 48))
    else (acc, c :: cs)

/-- Parses an integral JSON number (optional minus sign, digits). -/
def parseJInt (cs : List Char) : Option (Int × List Char) :=
  match cs with
  | [] => none
  | c :: cs1 =>
    if c = '-' then
      match cs1 with
      | [] => none
      | c2 :: cs2 =>
        if c2.isDigit then
          match digitsToNatAux cs2 (c2.toNat - 48) with
          | (n, rest) => some (-(n : Int), rest)
        else none
    else if c.isDigit then
      match digitsToNatAux cs1 (c.toNat - 48) with
      | (n, rest) => some ((n : Int), rest)
    else none

/-- Consumes an exact literal character sequence. -/
def expectLit : List Char → List Char → Option (List Char)
  | [], cs => some cs
  | _ :: _, [] => none
  | l :: ls, c :: cs => if c = l then expectLit ls cs else none

/-- Parses `null` or a JSON string. -/
def parseOptStr (cs : List Char) : Option (Option String × List Char) :=
  match expectLit ['n', 'u', 'l', 'l'] cs with
  | some rest => some (none, rest)
  | none =>
    match parseJString cs with
    | some (s, rest) => some (some s, rest)
    | none => none

/-- Parses `null` or an integral JSON number. -/
def parseOptInt (cs : List Char) : Option (Option Int × List Char) :=
  match expectLit ['n', 'u', 'l', 'l'] cs with
  | some rest => some (none, rest)
  | none =>
    match parseJInt cs with
    | some (n, rest) => some (some n, rest)
    | none => none

/-- Parses the JSON object text of a session description. -/
def parseDesc (cs : List Char) : Option (SessionDesc × List Char) :=
  match expectLit ('{' :: jsonQuote "type" ++ [':']) cs with
  | none => none
  | some cs1 =>
    match parseJString cs1 with
    | none => none
    | some (t, cs2) =>
      match expectLit (',' :: jsonQuote "sdp" ++ [':']) cs2 with
      | none => none
      | some cs3 =>
        match parseJString cs3 with
        | none => none
        | some (sdp0, cs4) =>
          match expectLit ['}'] cs4 with
          | none => none
          | some cs5 => some (SessionDesc.mk t sdp0, cs5)

/-- Parses the JSON object text of one candidate. -/
def parseCand (cs : List Char) : Option (CandInit × List Char) :=
  match expectLit ('{' :: jsonQuote "candidate" ++ [':']) cs with
  | none => none
  | some cs1 =>
    match parseJString cs1 with
    | none => none
    | some (cand, cs2) =>
      match expectLit (',' :: jsonQuote "sdpMid" ++ [':']) cs2 with
      | none => none
      | some cs3 =>
        match parseOptStr cs3 with
        | none => none
        | some (mid, cs4) =>
          match expectLit (',' :: jsonQuote "sdpMLineIndex" ++ [':']) cs4 with
          | none => none
          | some cs5 =>
            match parseOptInt cs5 with
            | none => none
            | some (mli, cs6) =>
              match expectLit (',' :: jsonQuote "usernameFragment"
                  ++ [':']) cs6 with
              | none => none
              | some cs7 =>
                match parseOptStr cs7 with
                | none => none
                | some (ufrag, cs8) =>
                  match expectLit ['}'] cs8 with
                  | none => none
                  | some cs9 =>
                    some (CandInit.mk cand mid mli ufrag, cs9)

/-- Parses the comma-separated items after the first array element, up
to and over the closing bracket; fuelled by an upper bound on the
number of remaining items. -/
def parseCandsRest : Nat → List Char → Option (List CandInit × List Char)
  | _, [] => none
  | fuel, c :: cs =>
    if c = ']' then some ([], cs)
    else if c = ',' then
      match fuel with
      | 0 => none
      | fuel' + 1 =>
        match parseCand cs with
        | some (cd, cs2) =>
          match parseCandsRest fuel' cs2 with
          | some (l, rest) => some (cd :: l, rest)
          | none => none
        | none => none
    else none

/-- Parses the JSON array text of a candidate list. -/
def parseCands (cs : List Char) : Option (List CandInit × List Char) :=
  match cs with
  | [] => none
  | c :: cs1 =>
    if c = '[' then
      match cs1 with
      | [] => none
      | c2 :: cs2 =>
        if c2 = ']' then some ([], cs2)
        else
          match parseCand (c2 :: cs2) with
          | some (cd, cs3) =>
            match parseCandsRest cs3.length cs3 with
            | some (l, rest) => some (cd :: l, rest)
            | none => none
          | none => none
    else none

/-- The base64 alphabet used by `btoa`. -/
def b64Alphabet : List Char :=
  ['A', 'B', 'C', 'D', 'E', 'F', 'G', 'H', 'I', 'J', 'K', 'L', 'M',
   'N', 'O', 'P', 'Q', 'R', 'S', 'T', 'U', 'V', 'W', 'X', 'Y', 'Z',
   'a', 'b', 'c', 'd', 'e', 'f', 'g', 'h', 'i', 'j', 'k', 'l', 'm',
   'n', 'o', 'p', 'q', 'r', 's', 't', 'u', 'v', 'w', 'x', 'y', 'z',
   '0', '1', '2', '3', '4', '5', '6', '7', '8', '9', '+', '/']

/-- Character for one six-bit group. -/
def b64Char (n : Nat) : Char := b64Alphabet.getD n '='

/-- Scans the alphabet for a character's six-bit value. -/
def b64IndexAux : List Char → Nat → Char → Option Nat
  | [], _, _ => none
  | a :: as, i, c => if a = c then some i else b64IndexAux as (i + 1) c

/-- Six-bit value of a base64 character. -/
def b64Index (c : Char) : Option Nat := b64IndexAux b64Alphabet 0 c

/-- Model of `btoa`: base64 text of a byte sequence, with `=`
padding. -/
def btoaBytes : List Nat → List Char
  | [] => []
  | [a] => [b64Char (a / 4), b64Char (a % 4 * 16), '=', '=']
  | [a, b] => [b64Char (a / 4), b64Char (a % 4 * 16 + b / 16),
      b64Char (b % 16 * 4), '=']
  | a :: b :: c :: rest =>
    b64Char (a / 4) :: b64Char (a % 4 * 16 + b / 16) ::
      b64Char (b % 16 * 4 + c / 64) :: b64Char (c % 64) :: btoaBytes rest

/-- Model of `atob` on padded base64 text (the form `btoa` emits):
decodes four characters to three bytes, with the two padded final
quads decoding to one or two bytes. -/
def atobBytes : List Char → Option (List Nat)
  | [] => some []
  | w :: x :: y :: z :: rest =>
    match b64Index w, b64Index x with
    | some a, some b =>
      if y = '=' ∧ z = '=' ∧ rest = [] then some [a * 4 + b / 16]
      else
        match b64Index y with
        | some g =>
          if z = '=' ∧ rest = [] then
            some [a * 4 + b / 16, b % 16 * 16 + g / 4]
          else
            match b64Index z, atobBytes rest with
            | some d, some bs =>
                some ((a * 4 + b / 16) :: (b % 16 * 16 + g / 4) ::
                  (g % 4 * 64 + d) :: bs)
            | _, _ => none
        | none => none
    | _, _ => none
  | _ => none

/-- All characters of a string are Latin-1 code units (the domain on
which `btoa` does not throw). -/
def Latin1 (s : String) : Prop := ∀ c ∈ s.data, c.toNat < 256

instance (s : String) : Decidable (Latin1 s) := by
  unfold Latin1
  infer_instance

/-- Well-formed wire description: both fields are Latin-1 (so that
`btoa` accepts the JSON text). -/
def WfDesc (d : SessionDesc) : Prop := Latin1 d.descType ∧ Latin1 d.sdp

instance (d : SessionDesc) : Decidable (WfDesc d) := by
  unfold WfDesc
  infer_instance

/-- Well-formed wire candidate: every string field is Latin-1. -/
def WfCand (c : CandInit) : Prop :=
  Latin1 c.candidate ∧
  (∀ s, c.sdpMid = some s → Latin1 s) ∧
  (∀ s, c.usernameFragment = some s → Latin1 s)

instance decidableOptLatin1 (o : Option String) :
    Decidable (∀ s, o = some s → Latin1 s) :=
  match o with
  | none => isTrue (fun _ h => nomatch h)
  | some t =>
    decidable_of_iff (Latin1 t)
      ⟨fun h s hs => by
          rw [Option.some_inj] at hs
          exact hs ▸ h,
        fun h => h t rfl⟩

instance (c : CandInit) : Decidable (WfCand c) :=
  inferInstanceAs (Decidable (Latin1 c.candidate ∧
    (∀ s, c.sdpMid = some s → Latin1 s) ∧
    (∀ s, c.usernameFragment = some s → Latin1 s)))

/-- Model of `btoa(JSON.stringify(description))` (the `getOffer` /
`getAnswer` reporters): `none` models the exception `btoa` throws on a
code unit above 255. -/
def encodeDesc (d : SessionDesc) : Option (List Char) :=
  let bytes := (stringifyDesc d).map Char.toNat
  if bytes.all (fun b => decide (b < 256)) then some (btoaBytes bytes)
  else none

/-- Model of `JSON.parse(atob(text))` for a description
(`handleAnswer` / `createAnswer` input path). -/
def decodeDesc (cs : List Char) : Option SessionDesc :=
  match atobBytes cs with
  | some bs =>
    match parseDesc (bs.map Char.ofNat) with
    | some (d, []) => some d
    | _ => none
  | none => none

/-- Model of `btoa(JSON.stringify(candidates))` (the `getIce`
reporter). -/
def encodeCands (l : List CandInit) : Option (List Char) :=
  let bytes := (stringifyCands l).map Char.toNat
  if bytes.all (fun b => decide (b < 256)) then some (btoaBytes bytes)
  else none

/-- Model of `JSON.parse(atob(text))` for a candidate list (the
`handleIce` input path). -/
def decodeCands (cs : List Char) : Option (List CandInit) :=
  match atobBytes cs with
  | some bs =>
    match parseCands (bs.map Char.ofNat) with
    | some (l, []) => some l
    | _ => none
  | none => none

theorem jget_jset_self {α : Type} (m : JMap α) (k : String) (v : α) :
    jget (jset m k v) k = some v := by
  induction m with
  | nil => simp [jset, jget]
  | cons hd tl ih =>
    obtain ⟨k', v'⟩ := hd
    by_cases h : k' = k <;> simp [jset, jget, h, ih]

theorem jget_jset_ne {α : Type} (m : JMap α) (k k' : String) (v : α)
    (h : k' ≠ k) : jget (jset m k v) k' = jget m k' := by
  induction m with
  | nil => simp [jset, jget, Ne.symm h]
  | cons hd tl ih =>
    obtain ⟨k0, v0⟩ := hd
    by_cases h0 : k0 = k
    · subst h0
      simp [jset, jget, Ne.symm h]
    · by_cases h1 : k0 = k' <;> simp [jset, jget, h0, h1, h, ih]

theorem jhas_jset_self {α : Type} (m : JMap α) (k : String) (v : α) :
    jhas (jset m k v) k = true := by
  simp [jhas, jget_jset_self]

theorem jhas_jset_ne {α : Type} (m : JMap α) (k k' : String) (v : α)
    (h : k' ≠ k) : jhas (jset m k v) k' = jhas m k' := by
  simp [jhas, jget_jset_ne m k k' v h]

theorem jget_jdel_self {α : Type} (m : JMap α) (k : String) :
    jget (jdel m k) k = none := by
  induction m with
  | nil => simp [jdel, jget]
  | cons hd tl ih =>
    obtain ⟨k', v'⟩ := hd
    by_cases h : k' = k
    · simpa [jdel, List.filter_cons, h] using ih
    · simpa [jdel, List.filter_cons, jget, h] using ih

theorem jget_jdel_ne {α : Type} (m : JMap α) (k k' : String) (h : k' ≠ k) :
    jget (jdel m k) k' = jget m k' := by
  induction m with
  | nil => simp [jdel]
  | cons hd tl ih =>
    obtain ⟨k0, v0⟩ := hd
    by_cases h0 : k0 = k
    · subst h0
      simpa [jdel, List.filter_cons, jget, Ne.symm h] using ih
    · by_cases h1 : k0 = k'
      · subst h1; simp [jdel, List.filter_cons, jget, h0]
      · simpa [jdel, List.filter_cons, jget, h0, h1] using ih

theorem jhas_jdel_self {α : Type} (m : JMap α) (k : String) :
    jhas (jdel m k) k = false := by
  simp [jhas, jget_jdel_self]

theorem jhas_jdel_ne {α : Type} (m : JMap α) (k k' : String) (h : k' ≠ k) :
    jhas (jdel m k) k' = jhas m k' := by
  simp [jhas, jget_jdel_ne m k k' h]

theorem jdel_of_not_has {α : Type} (m : JMap α) (k : String)
    (h : jhas m k = false) : jdel m k = m := by
  induction m with
  | nil => simp [jdel]
  | cons hd tl ih =>
    obtain ⟨k', v'⟩ := hd
    by_cases h0 : k' = k
    · subst h0; simp [jhas, jget] at h
    · have htl : jhas tl k = false := by
        simpa [jhas, jget, h0] using h
      have hstep : jdel ((k', v') :: tl) k = (k', v') :: jdel tl k := by
        simp [jdel, List.filter_cons, h0]
      rw [hstep, ih htl]

theorem jget_jupdate_self {α : Type} (m : JMap α) (k : String) (f : α → α) :
    jget (jupdate m k f) k = (jget m k).map f := by
  unfold jupdate
  cases h : jget m k with
  | none => simp [h]
  | some v => simp [jget_jset_self]

theorem jget_jupdate_ne {α : Type} (m : JMap α) (k k' : String) (f : α → α)
    (h : k' ≠ k) : jget (jupdate m k f) k' = jget m k' := by
  unfold jupdate
  cases hg : jget m k with
  | none => rfl
  | some v => simp [jget_jset_ne m k k' (f v) h]

theorem jhas_jupdate {α : Type} (m : JMap α) (k k' : String) (f : α → α) :
    jhas (jupdate m k f) k' = jhas m k' := by
  by_cases h : k' = k
  · subst h
    simp only [jhas, jget_jupdate_self]
    cases jget m k' <;> simp
  · simp [jhas, jget_jupdate_ne m k k' f h]

theorem jkeys_jset_of_has {α : Type} (m : JMap α) (k : String) (v : α)
    (h : jhas m k = true) : jkeys (jset m k v) = jkeys m := by
  induction m with
  | nil => simp [jhas, jget] at h
  | cons hd tl ih =>
    obtain ⟨k', v'⟩ := hd
    by_cases h0 : k' = k
    · subst h0; simp [jset, jkeys]
    · simp [jhas, jget, h0] at h
      simp [jset, jkeys, h0] at ih ⊢
      exact ih (by simpa [jhas] using h)

theorem jkeys_jset_of_not_has {α : Type} (m : JMap α) (k : String) (v : α)
    (h : jhas m k = false) : jkeys (jset m k v) = jkeys m ++ [k] := by
  induction m with
  | nil => simp [jset, jkeys]
  | cons hd tl ih =>
    obtain ⟨k', v'⟩ := hd
    by_cases h0 : k' = k
    · subst h0; simp [jhas, jget] at h
    · simp [jhas, jget, h0] at h
      simp [jset, jkeys, h0] at ih ⊢
      exact ih (by simpa [jhas] using h)

theorem jkeys_jdel {α : Type} (m : JMap α) (k : String) :
    jkeys (jdel m k) = (jkeys m).filter (fun x => decide (x ≠ k)) := by
  induction m with
  | nil => simp [jdel, jkeys]
  | cons hd tl ih =>
    obtain ⟨k', v'⟩ := hd
    by_cases h0 : k' = k
    · simpa [jdel, jkeys, List.filter_cons, h0] using ih
    · simpa [jdel, jkeys, List.filter_cons, h0] using ih

theorem jhas_iff_mem_jkeys {α : Type} (m : JMap α) (k : String) :
    jhas m k = true ↔ k ∈ jkeys m := by
  induction m with
  | nil => simp [jhas, jget, jkeys]
  | cons hd tl ih =>
    obtain ⟨k', v'⟩ := hd
    by_cases h0 : k' = k
    · subst h0; simp [jhas, jget, jkeys]
    · have ih' : (jget tl k).isSome = true ↔ k ∈ List.map Prod.fst tl := by
        simpa [jhas, jkeys] using ih
      simp only [jhas, jget, jkeys, List.map_cons, List.mem_cons, h0,
        if_false]
      constructor
      · intro hh
        exact Or.inr (ih'.mp hh)
      · intro hh
        rcases hh with hh | hh
        · exact absurd hh.symm h0
        · exact ih'.mpr hh

theorem jkeys_jupdate {α : Type} (m : JMap α) (k : String) (f : α → α) :
    jkeys (jupdate m k f) = jkeys m := by
  unfold jupdate
  cases h : jget m k with
  | none => rfl
  | some v =>
    exact jkeys_jset_of_has m k (f v) (by simp [jhas, h])

theorem jkeys_nodup_jset {α : Type} (m : JMap α) (k : String) (v : α)
    (h : (jkeys m).Nodup) : (jkeys (jset m k v)).Nodup := by
  by_cases hk : jhas m k = true
  · rw [jkeys_jset_of_has m k v hk]; exact h
  · rw [jkeys_jset_of_not_has m k v (by simpa using hk)]
    have hne : k ∉ jkeys m := fun hmem =>
      hk ((jhas_iff_mem_jkeys m k).mpr hmem)
    exact List.Nodup.append h (List.nodup_singleton k)
      (by
        intro a ha hb
        simp only [List.mem_singleton] at hb
        subst hb
        exact hne ha)

theorem jkeys_nodup_jdel {α : Type} (m : JMap α) (k : String)
    (h : (jkeys m).Nodup) : (jkeys (jdel m k)).Nodup := by
  rw [jkeys_jdel]
  exact h.filter _

theorem jkeys_nodup_jupdate {α : Type} (m : JMap α) (k : String) (f : α → α)
    (h : (jkeys m).Nodup) : (jkeys (jupdate m k f)).Nodup := by
  rw [jkeys_jupdate]; exact h

namespace OmegaRTC

theorem uniqueKeys_getData (st : OmegaRTC) (id : String)
    (h : UniqueKeys st) : UniqueKeys (getDataConnection st id).2 := by
  obtain ⟨hd, hv⟩ := h
  by_cases hh : jhas st.dataConnections id = true
  · simpa [getDataConnection, hh] using ⟨hd, hv⟩
  · refine ⟨?_, ?_⟩
    · simp [getDataConnection, handleDataChannel, hh]
      exact jkeys_nodup_jset _ _ _ hd
    · simpa [getDataConnection, handleDataChannel, hh] using hv

theorem uniqueKeys_getVoice (st : OmegaRTC) (id : String) (setup micOk : Bool)
    (h : UniqueKeys st) : UniqueKeys (getVoiceConnection st id setup micOk).2 := by
  obtain ⟨hd, hv⟩ := h
  by_cases hh : jhas st.voiceConnections id = true
  · simpa [getVoiceConnection, hh] using ⟨hd, hv⟩
  · cases setup with
    | false =>
      refine ⟨?_, ?_⟩
      · simpa [getVoiceConnection, hh] using hd
      · simp [getVoiceConnection, hh]
        exact jkeys_nodup_jset _ _ _ hv
    | true =>
      cases micOk with
      | true =>
        refine ⟨?_, ?_⟩
        · simpa [getVoiceConnection, setupVoiceConnection, hh] using hd
        · simp [getVoiceConnection, setupVoiceConnection, hh]
          exact jkeys_nodup_jset _ _ _ hv
      | false =>
        refine ⟨?_, ?_⟩
        · simpa [getVoiceConnection, setupVoiceConnection,
            closeVoiceConnection, hh] using hd
        · simp [getVoiceConnection, setupVoiceConnection,
            closeVoiceConnection, hh]
          exact jkeys_nodup_jdel _ _ (jkeys_nodup_jset _ _ _ hv)

theorem uniqueKeys_closeData (st : OmegaRTC) (id : String)
    (h : UniqueKeys st) : UniqueKeys (closeDataConnection st id) := by
  obtain ⟨hd, hv⟩ := h
  exact ⟨by simpa [closeDataConnection] using jkeys_nodup_jdel _ _ hd,
    by simpa [closeDataConnection] using hv⟩

theorem uniqueKeys_closeVoice (st : OmegaRTC) (id : String)
    (h : UniqueKeys st) : UniqueKeys (closeVoiceConnection st id) := by
  obtain ⟨hd, hv⟩ := h
  exact ⟨by simpa [closeVoiceConnection] using hd,
    by simpa [closeVoiceConnection] using jkeys_nodup_jdel _ _ hv⟩

theorem uniqueKeys_fire (st : OmegaRTC) (e : String)
    (h : UniqueKeys st) : UniqueKeys (fire st e) := by
  simpa [UniqueKeys, fire] using h

theorem uniqueKeys_handleAnswer (st : OmegaRTC) (id : String) (mode : Int)
    (h : UniqueKeys st) : UniqueKeys (handleAnswer st id mode) := by
  unfold handleAnswer getConnectionObject
  by_cases h0 : mode = 0
  · simpa [h0] using uniqueKeys_getData st id h
  · by_cases h1 : mode = 1
    · simpa [h0, h1] using h
    · simpa [h0, h1] using h

theorem uniqueKeys_createOffer (st : OmegaRTC) (id : String) (mode : Int)
    (setup : Option Bool) (micOk : Bool)
    (h : UniqueKeys st) : UniqueKeys (createOffer st id mode setup micOk) := by
  unfold createOffer getConnectionObject
  by_cases h0 : mode = 0
  · simpa [h0] using uniqueKeys_getData st id h
  · by_cases h1 : mode = 1
    · cases setup with
      | none => simpa [h0, h1] using h
      | some s => simpa [h0, h1] using uniqueKeys_getVoice st id s micOk h
    · simpa [h0, h1] using h

/-- Preservation of `UniqueKeys` across every registry operation: at
most one connection per (mode, id) ever exists. -/
theorem uniqueKeys_step (op : Op) (st : OmegaRTC)
    (h : UniqueKeys st) : UniqueKeys (step op st) := by
  obtain ⟨hd, hv⟩ := h
  cases op with
  | opGetData id => exact uniqueKeys_getData st id ⟨hd, hv⟩
  | opGetVoice id setup micOk => exact uniqueKeys_getVoice st id setup micOk ⟨hd, hv⟩
  | opCloseData id => exact uniqueKeys_closeData st id ⟨hd, hv⟩
  | opCloseVoice id => exact uniqueKeys_closeVoice st id ⟨hd, hv⟩
  | opCloseChannel id label =>
    simp only [step]
    unfold closeChannel
    split
    · exact ⟨hd, hv⟩
    · split
      · exact ⟨hd, hv⟩
      · exact ⟨by simpa using hd, by simpa using hv⟩
  | opCreateChannel id label ordered =>
    simp only [step]
    unfold createDataChannel
    split <;> exact ⟨hd, hv⟩
  | opSendData id label data wait =>
    simp only [step]
    unfold sendData
    split
    · exact ⟨hd, hv⟩
    · split <;> exact ⟨hd, hv⟩
  | opHandleAnswer id mode =>
    exact uniqueKeys_handleAnswer st id mode ⟨hd, hv⟩
  | opCreateOffer id mode setup micOk =>
    exact uniqueKeys_createOffer st id mode setup micOk ⟨hd, hv⟩
  | opCreateAnswer id mode setup micOk =>
    exact uniqueKeys_createOffer st id mode setup micOk ⟨hd, hv⟩
  | opHandleIce id mode setup micOk =>
    exact uniqueKeys_createOffer st id mode setup micOk ⟨hd, hv⟩
  | opDataIce id cand gs =>
    simp only [step]
    unfold onDataIceCandidate
    cases gs <;> cases cand <;>
      simp [fire, jupdate] <;>
      first
        | exact ⟨hd, hv⟩
        | (split <;> exact ⟨hd, hv⟩)
  | opVoiceIce id cand gs =>
    simp only [step]
    unfold onVoiceIceCandidate
    cases gs <;> cases cand <;>
      simp [jupdate] <;>
      first
        | exact ⟨hd, hv⟩
        | (split <;> exact ⟨hd, hv⟩)
  | opDataConnState id cs =>
    cases cs with
    | connected =>
      exact ⟨by simpa [step, onDataConnectionStateChange, fire] using hd,
        by simpa [step, onDataConnectionStateChange, fire] using hv⟩
    | closed =>
      exact ⟨by simpa [step, onDataConnectionStateChange, fire,
          closeDataConnection] using jkeys_nodup_jdel _ _ hd,
        by simpa [step, onDataConnectionStateChange, fire,
          closeDataConnection] using hv⟩
    | failed =>
      exact ⟨by simpa [step, onDataConnectionStateChange, fire,
          closeDataConnection] using jkeys_nodup_jdel _ _ hd,
        by simpa [step, onDataConnectionStateChange, fire,
          closeDataConnection] using hv⟩
    | csNew => exact ⟨hd, hv⟩
    | connecting => exact ⟨hd, hv⟩
    | disconnected => exact ⟨hd, hv⟩
  | opVoiceConnState id cs =>
    cases cs with
    | closed =>
      exact ⟨by simpa [step, onVoiceConnectionStateChange,
          closeVoiceConnection] using hd,
        by simpa [step, onVoiceConnectionStateChange,
          closeVoiceConnection] using jkeys_nodup_jdel _ _ hv⟩
    | failed =>
      exact ⟨by simpa [step, onVoiceConnectionStateChange,
          closeVoiceConnection] using hd,
        by simpa [step, onVoiceConnectionStateChange,
          closeVoiceConnection] using jkeys_nodup_jdel _ _ hv⟩
    | csNew => exact ⟨hd, hv⟩
    | connecting => exact ⟨hd, hv⟩
    | connected => exact ⟨hd, hv⟩
    | disconnected => exact ⟨hd, hv⟩
  | opInbandChannel id chan =>
    exact ⟨by simpa [step, onInbandDataChannel, handleDataChannel] using hd,
      by simpa [step, onInbandDataChannel, handleDataChannel] using hv⟩
  | opChannelMessage id label payload =>
    exact ⟨by simpa [step, onChannelMessage, fire] using hd,
      by simpa [step, onChannelMessage, fire] using hv⟩
  | opChannelOpen id label =>
    exact ⟨by simpa [step, onChannelOpen, fire] using hd,
      by simpa [step, onChannelOpen, fire] using hv⟩
  | opChannelClose id label =>
    simp only [step]
    unfold onChannelClose
    split
    · exact ⟨by simpa [fire, closeDataConnection] using jkeys_nodup_jdel _ _ hd,
        by simpa [fire, closeDataConnection] using hv⟩
    · exact ⟨by simpa [fire] using hd, by simpa [fire] using hv⟩
  | opVoiceTrack id streams =>
    exact ⟨by simpa [step, onVoiceTrack] using hd,
      by simpa [step, onVoiceTrack] using hv⟩

end OmegaRTC

theorem jhas_eq_of_jkeys_eq {α β : Type} (m : JMap α) (m2 : JMap β)
    (k : String) (h : jkeys m = jkeys m2) : jhas m k = jhas m2 k := by
  cases hm : jhas m k
  · cases hm2 : jhas m2 k
    · rfl
    · exfalso
      have hmem := (jhas_iff_mem_jkeys m2 k).mp hm2
      rw [← h] at hmem
      have := (jhas_iff_mem_jkeys m k).mpr hmem
      simp [hm] at this
  · cases hm2 : jhas m2 k
    · exfalso
      have hmem := (jhas_iff_mem_jkeys m k).mp hm
      rw [h] at hmem
      have := (jhas_iff_mem_jkeys m2 k).mpr hmem
      simp [hm2] at this
    · rfl

namespace OmegaRTC

theorem dataSynced_getData (st : OmegaRTC) (id : String)
    (h : DataKeysSynced st) : DataKeysSynced (getDataConnection st id).2 := by
  obtain ⟨h1, h2, h3, h4⟩ := h
  by_cases hh : jhas st.dataConnections id = true
  · simpa [getDataConnection, hh] using ⟨h1, h2, h3, h4⟩
  · have hh' : jhas st.dataConnections id = false := by simpa using hh
    have nc : jhas st.dataChannels id = false :=
      (jhas_eq_of_jkeys_eq _ _ id h1).trans hh'
    have ns : jhas st.dataStorage id = false :=
      (jhas_eq_of_jkeys_eq _ _ id h2).trans hh'
    have ni : jhas st.dataIceCandidates id = false :=
      (jhas_eq_of_jkeys_eq _ _ id h3).trans hh'
    have nd : jhas st.dataIceDone id = false :=
      (jhas_eq_of_jkeys_eq _ _ id h4).trans hh'
    refine ⟨?_, ?_, ?_, ?_⟩ <;>
      simp [getDataConnection, handleDataChannel, hh', jkeys_jupdate,
        jkeys_jset_of_not_has _ _ _ nc, jkeys_jset_of_not_has _ _ _ ns,
        jkeys_jset_of_not_has _ _ _ ni, jkeys_jset_of_not_has _ _ _ nd,
        jkeys_jset_of_not_has _ _ _ hh', h1, h2, h3, h4]

theorem dataSynced_closeData (st : OmegaRTC) (id : String)
    (h : DataKeysSynced st) : DataKeysSynced (closeDataConnection st id) := by
  obtain ⟨h1, h2, h3, h4⟩ := h
  refine ⟨?_, ?_, ?_, ?_⟩ <;>
    simp [closeDataConnection, jkeys_jdel, h1, h2, h3, h4]

theorem dataSynced_getVoice (st : OmegaRTC) (id : String) (setup micOk : Bool)
    (h : DataKeysSynced st) :
    DataKeysSynced (getVoiceConnection st id setup micOk).2 := by
  obtain ⟨h1, h2, h3, h4⟩ := h
  by_cases hh : jhas st.voiceConnections id = true
  · simpa [getVoiceConnection, hh] using ⟨h1, h2, h3, h4⟩
  · have hh' : jhas st.voiceConnections id = false := by simpa using hh
    cases setup <;> cases micOk <;>
      refine ⟨?_, ?_, ?_, ?_⟩ <;>
        simp [getVoiceConnection, setupVoiceConnection, closeVoiceConnection,
          hh', h1, h2, h3, h4]

theorem dataSynced_handleAnswer (st : OmegaRTC) (id : String) (mode : Int)
    (h : DataKeysSynced st) : DataKeysSynced (handleAnswer st id mode) := by
  unfold handleAnswer getConnectionObject
  by_cases h0 : mode = 0
  · simpa [h0] using dataSynced_getData st id h
  · by_cases h1 : mode = 1
    · simpa [h0, h1] using h
    · simpa [h0, h1] using h

theorem dataSynced_createOffer (st : OmegaRTC) (id : String) (mode : Int)
    (setup : Option Bool) (micOk : Bool)
    (h : DataKeysSynced st) :
    DataKeysSynced (createOffer st id mode setup micOk) := by
  unfold createOffer getConnectionObject
  by_cases h0 : mode = 0
  · simpa [h0] using dataSynced_getData st id h
  · by_cases h1 : mode = 1
    · cases setup with
      | none => simpa [h0, h1] using h
      | some s => simpa [h0, h1] using dataSynced_getVoice st id s micOk h
    · simpa [h0, h1] using h

/-- Preservation of `DataKeysSynced` across every registry operation
(assuming callback delivery only for live connections). -/
theorem dataSynced_step (op : Op) (st : OmegaRTC)
    (hl : OpDelivers op st) (h : DataKeysSynced st) :
    DataKeysSynced (step op st) := by
  obtain ⟨h1, h2, h3, h4⟩ := h
  cases op with
  | opGetData id => exact dataSynced_getData st id ⟨h1, h2, h3, h4⟩
  | opGetVoice id setup micOk =>
    exact dataSynced_getVoice st id setup micOk ⟨h1, h2, h3, h4⟩
  | opCloseData id => exact dataSynced_closeData st id ⟨h1, h2, h3, h4⟩
  | opCloseVoice id =>
    refine ⟨?_, ?_, ?_, ?_⟩ <;>
      simp [step, closeVoiceConnection, h1, h2, h3, h4]
  | opCloseChannel id label =>
    simp only [step]
    unfold closeChannel
    split
    · exact ⟨h1, h2, h3, h4⟩
    · split
      · exact ⟨h1, h2, h3, h4⟩
      · refine ⟨?_, ?_, ?_, ?_⟩ <;> simp [jkeys_jupdate, h1, h2, h3, h4]
  | opCreateChannel id label ordered =>
    simp only [step]
    unfold createDataChannel
    split <;> exact ⟨h1, h2, h3, h4⟩
  | opSendData id label data wait =>
    simp only [step]
    unfold sendData
    split
    · exact ⟨h1, h2, h3, h4⟩
    · split <;> exact ⟨h1, h2, h3, h4⟩
  | opHandleAnswer id mode =>
    exact dataSynced_handleAnswer st id mode ⟨h1, h2, h3, h4⟩
  | opCreateOffer id mode setup micOk =>
    exact dataSynced_createOffer st id mode setup micOk ⟨h1, h2, h3, h4⟩
  | opCreateAnswer id mode setup micOk =>
    exact dataSynced_createOffer st id mode setup micOk ⟨h1, h2, h3, h4⟩
  | opHandleIce id mode setup micOk =>
    exact dataSynced_createOffer st id mode setup micOk ⟨h1, h2, h3, h4⟩
  | opDataIce id cand gs =>
    have hdone : jhas st.dataIceDone id = true := by
      rw [jhas_eq_of_jkeys_eq _ _ id h4]
      exact hl
    cases gs with
    | gathNew =>
      cases cand <;>
        refine ⟨?_, ?_, ?_, ?_⟩ <;>
          simp [step, onDataIceCandidate, jkeys_jupdate, h1, h2, h3, h4]
    | gathering =>
      cases cand <;>
        simp only [step, onDataIceCandidate] <;>
        split <;>
          refine ⟨?_, ?_, ?_, ?_⟩ <;>
            simp [fire, jkeys_jupdate, h1, h2, h3, h4]
    | complete =>
      cases cand with
      | none =>
        refine ⟨?_, ?_, ?_, ?_⟩ <;>
          simp [step, onDataIceCandidate, fire, jkeys_jupdate,
            jkeys_jset_of_has _ _ _ hdone, h1, h2, h3, h4]
      | some c =>
        refine ⟨?_, ?_, ?_, ?_⟩ <;>
          simp [step, onDataIceCandidate, fire, jkeys_jupdate,
            jkeys_jset_of_has _ _ _ hdone, h1, h2, h3, h4]
  | opVoiceIce id cand gs =>
    cases gs <;> cases cand <;>
      refine ⟨?_, ?_, ?_, ?_⟩ <;>
        simp [step, onVoiceIceCandidate, h1, h2, h3, h4]
  | opDataConnState id cs =>
    cases cs with
    | connected =>
      refine ⟨?_, ?_, ?_, ?_⟩ <;>
        simp [step, onDataConnectionStateChange, fire, h1, h2, h3, h4]
    | closed =>
      obtain ⟨g1, g2, g3, g4⟩ := dataSynced_closeData st id ⟨h1, h2, h3, h4⟩
      exact ⟨by simpa [step, onDataConnectionStateChange, fire] using g1,
        by simpa [step, onDataConnectionStateChange, fire] using g2,
        by simpa [step, onDataConnectionStateChange, fire] using g3,
        by simpa [step, onDataConnectionStateChange, fire] using g4⟩
    | failed =>
      obtain ⟨g1, g2, g3, g4⟩ := dataSynced_closeData st id ⟨h1, h2, h3, h4⟩
      exact ⟨by simpa [step, onDataConnectionStateChange, fire] using g1,
        by simpa [step, onDataConnectionStateChange, fire] using g2,
        by simpa [step, onDataConnectionStateChange, fire] using g3,
        by simpa [step, onDataConnectionStateChange, fire] using g4⟩
    | csNew => exact ⟨h1, h2, h3, h4⟩
    | connecting => exact ⟨h1, h2, h3, h4⟩
    | disconnected => exact ⟨h1, h2, h3, h4⟩
  | opVoiceConnState id cs =>
    cases cs <;>
      refine ⟨?_, ?_, ?_, ?_⟩ <;>
        simp [step, onVoiceConnectionStateChange, closeVoiceConnection,
          h1, h2, h3, h4]
  | opInbandChannel id chan =>
    refine ⟨?_, ?_, ?_, ?_⟩ <;>
      simp [step, onInbandDataChannel, handleDataChannel, jkeys_jupdate,
        h1, h2, h3, h4]
  | opChannelMessage id label payload =>
    refine ⟨?_, ?_, ?_, ?_⟩ <;>
      simp [step, onChannelMessage, fire, jkeys_jupdate, h1, h2, h3, h4]
  | opChannelOpen id label =>
    refine ⟨?_, ?_, ?_, ?_⟩ <;>
      simp [step, onChannelOpen, fire, h1, h2, h3, h4]
  | opChannelClose id label =>
    simp only [step]
    unfold onChannelClose
    split
    · have hcd := dataSynced_closeData (fire st (id ++ "_channel-close")) id
        ⟨by simpa [fire] using h1, by simpa [fire] using h2,
         by simpa [fire] using h3, by simpa [fire] using h4⟩
      obtain ⟨g1, g2, g3, g4⟩ := hcd
      exact ⟨by simpa [fire] using g1, by simpa [fire] using g2,
        by simpa [fire] using g3, by simpa [fire] using g4⟩
    · exact ⟨by simpa [fire] using h1, by simpa [fire] using h2,
        by simpa [fire] using h3, by simpa [fire] using h4⟩
  | opVoiceTrack id streams =>
    refine ⟨?_, ?_, ?_, ?_⟩ <;>
      simp [step, onVoiceTrack, h1, h2, h3, h4]

end OmegaRTC

namespace OmegaRTC

theorem doneGathering_of_not_has (st : OmegaRTC) (id : String)
    (h : jhas st.dataConnections id = false) :
    doneGatheringIce st id = false := by
  simp [doneGatheringIce, h]

theorem doneGathering_getData (st : OmegaRTC) (id' id : String) :
    doneGatheringIce (getDataConnection st id').2 id = doneGatheringIce st id ∨
    (jhas st.dataConnections id = false ∧
      doneGatheringIce (getDataConnection st id').2 id = false) := by
  by_cases hh : jhas st.dataConnections id' = true
  · left; simp [getDataConnection, hh]
  · have hh' : jhas st.dataConnections id' = false := by simpa using hh
    by_cases hid : id = id'
    · subst hid
      right
      refine ⟨hh', ?_⟩
      simp [getDataConnection, handleDataChannel, doneGatheringIce, hh',
        jhas_jset_self, jget_jset_self]
    · left
      simp [getDataConnection, handleDataChannel, doneGatheringIce, hh',
        jhas_jset_ne _ _ _ _ hid, jget_jset_ne _ _ _ _ hid]

theorem doneGathering_getVoice (st : OmegaRTC) (id' : String)
    (setup micOk : Bool) (id : String) :
    doneGatheringIce (getVoiceConnection st id' setup micOk).2 id =
      doneGatheringIce st id := by
  by_cases hh : jhas st.voiceConnections id' = true
  · simp [getVoiceConnection, hh]
  · have hh' : jhas st.voiceConnections id' = false := by simpa using hh
    cases setup <;> cases micOk <;>
      simp [getVoiceConnection, setupVoiceConnection, closeVoiceConnection,
        doneGatheringIce, hh']

theorem doneGathering_closeData (st : OmegaRTC) (id' id : String) :
    doneGatheringIce (closeDataConnection st id') id = doneGatheringIce st id ∨
    jhas (closeDataConnection st id').dataConnections id = false := by
  by_cases hid : id = id'
  · subst hid
    right
    simp [closeDataConnection, jhas_jdel_self]
  · left
    simp [closeDataConnection, doneGatheringIce,
      jhas_jdel_ne _ _ _ hid, jget_jdel_ne _ _ _ hid]

theorem doneGathering_handleAnswer (st : OmegaRTC) (id' id : String)
    (mode : Int) :
    doneGatheringIce (handleAnswer st id' mode) id = doneGatheringIce st id ∨
    (jhas st.dataConnections id = false ∧
      doneGatheringIce (handleAnswer st id' mode) id = false) := by
  unfold handleAnswer getConnectionObject
  by_cases h0 : mode = 0
  · simpa [h0] using doneGathering_getData st id' id
  · by_cases h1 : mode = 1
    · left; simp [h0, h1]
    · left; simp [h0, h1]

theorem doneGathering_createOffer (st : OmegaRTC) (id' id : String)
    (mode : Int) (setup : Option Bool) (micOk : Bool) :
    doneGatheringIce (createOffer st id' mode setup micOk) id =
      doneGatheringIce st id ∨
    (jhas st.dataConnections id = false ∧
      doneGatheringIce (createOffer st id' mode setup micOk) id = false) := by
  unfold createOffer getConnectionObject
  by_cases h0 : mode = 0
  · simpa [h0] using doneGathering_getData st id' id
  · by_cases h1 : mode = 1
    · cases setup with
      | none => left; simp [h0, h1]
      | some s => left; simpa [h0, h1] using doneGathering_getVoice st id' s micOk id
    · left; simp [h0, h1]

/-- Any operation other than a data ICE event with gathering state
`complete` for this very id either leaves `doneGatheringIce id`
unchanged, or removes the connection, or acts on an id that was not
registered and leaves the flag false. -/
theorem doneGathering_step (op : Op) (st : OmegaRTC) (id : String)
    (hnot : ∀ c, op ≠ Op.opDataIce id c GatheringState.complete) :
    doneGatheringIce (step op st) id = doneGatheringIce st id ∨
    jhas (step op st).dataConnections id = false ∨
    (jhas st.dataConnections id = false ∧
      doneGatheringIce (step op st) id = false) := by
  cases op with
  | opGetData id' =>
    rcases doneGathering_getData st id' id with h | ⟨ha, hb⟩
    · exact Or.inl (by simpa [step] using h)
    · exact Or.inr (Or.inr ⟨ha, by simpa [step] using hb⟩)
  | opGetVoice id' setup micOk =>
    exact Or.inl (by simpa [step] using doneGathering_getVoice st id' setup micOk id)
  | opCloseData id' =>
    rcases doneGathering_closeData st id' id with h | h
    · exact Or.inl (by simpa [step] using h)
    · exact Or.inr (Or.inl (by simpa [step] using h))
  | opCloseVoice id' =>
    exact Or.inl (by simp [step, closeVoiceConnection, doneGatheringIce])
  | opCloseChannel id' label =>
    left
    simp only [step]
    unfold closeChannel
    split
    · rfl
    · split
      · rfl
      · simp [doneGatheringIce]
  | opCreateChannel id' label ordered =>
    left
    simp only [step]
    unfold createDataChannel
    split <;> rfl
  | opSendData id' label data wait =>
    left
    simp only [step]
    unfold sendData
    split
    · rfl
    · split <;> rfl
  | opHandleAnswer id' mode =>
    rcases doneGathering_handleAnswer st id' id mode with h | ⟨ha, hb⟩
    · exact Or.inl (by simpa [step] using h)
    · exact Or.inr (Or.inr ⟨ha, by simpa [step] using hb⟩)
  | opCreateOffer id' mode setup micOk =>
    rcases doneGathering_createOffer st id' id mode setup micOk with h | ⟨ha, hb⟩
    · exact Or.inl (by simpa [step] using h)
    · exact Or.inr (Or.inr ⟨ha, by simpa [step] using hb⟩)
  | opCreateAnswer id' mode setup micOk =>
    rcases doneGathering_createOffer st id' id mode setup micOk with h | ⟨ha, hb⟩
    · exact Or.inl (by simpa [step] using h)
    · exact Or.inr (Or.inr ⟨ha, by simpa [step] using hb⟩)
  | opHandleIce id' mode setup micOk =>
    rcases doneGathering_createOffer st id' id mode setup micOk with h | ⟨ha, hb⟩
    · exact Or.inl (by simpa [step] using h)
    · exact Or.inr (Or.inr ⟨ha, by simpa [step] using hb⟩)
  | opDataIce id' cand gs =>
    left
    cases gs with
    | gathNew =>
      cases cand <;>
        simp [step, onDataIceCandidate, doneGatheringIce, jhas_jupdate,
          jget_jupdate_ne, jupdate]
    | gathering =>
      cases cand <;>
        simp only [step, onDataIceCandidate] <;>
        split <;>
          simp [fire, doneGatheringIce, jhas_jupdate, jupdate]
    | complete =>
      by_cases hid : id' = id
      · exact absurd (by rw [hid]) (hnot cand)
      · have hid' : id ≠ id' := fun hh => hid hh.symm
        cases cand <;>
          simp [step, onDataIceCandidate, fire, doneGatheringIce,
            jhas_jupdate, jget_jset_ne _ _ _ _ hid', jupdate]
  | opVoiceIce id' cand gs =>
    left
    cases gs <;> cases cand <;>
      simp [step, onVoiceIceCandidate, doneGatheringIce]
  | opDataConnState id' cs =>
    cases cs with
    | closed =>
      rcases doneGathering_closeData st id' id with h | h
      · exact Or.inl (by simpa [step, onDataConnectionStateChange, fire,
          doneGatheringIce] using h)
      · exact Or.inr (Or.inl (by simpa [step, onDataConnectionStateChange,
          fire] using h))
    | failed =>
      rcases doneGathering_closeData st id' id with h | h
      · exact Or.inl (by simpa [step, onDataConnectionStateChange, fire,
          doneGatheringIce] using h)
      · exact Or.inr (Or.inl (by simpa [step, onDataConnectionStateChange,
          fire] using h))
    | connected =>
      exact Or.inl (by simp [step, onDataConnectionStateChange, fire,
        doneGatheringIce])
    | csNew => exact Or.inl rfl
    | connecting => exact Or.inl rfl
    | disconnected => exact Or.inl rfl
  | opVoiceConnState id' cs =>
    left
    cases cs <;>
      simp [step, onVoiceConnectionStateChange, closeVoiceConnection,
        doneGatheringIce]
  | opInbandChannel id' chan =>
    exact Or.inl (by simp [step, onInbandDataChannel, handleDataChannel,
      doneGatheringIce])
  | opChannelMessage id' label payload =>
    exact Or.inl (by simp [step, onChannelMessage, fire, doneGatheringIce])
  | opChannelOpen id' label =>
    exact Or.inl (by simp [step, onChannelOpen, fire, doneGatheringIce])
  | opChannelClose id' label =>
    simp only [step]
    unfold onChannelClose
    split
    · rcases doneGathering_closeData (fire st (id' ++ "_channel-close")) id' id
        with h | h
      · exact Or.inl (by simpa [fire, closeDataConnection, doneGatheringIce]
          using h)
      · exact Or.inr (Or.inl (by simpa [fire, closeDataConnection] using h))
    · exact Or.inl (by simp [fire, doneGatheringIce])
  | opVoiceTrack id' streams =>
    exact Or.inl (by simp [step, onVoiceTrack, doneGatheringIce])

end OmegaRTC

namespace OmegaRTC

theorem has_of_doneGathering (st : OmegaRTC) (id : String)
    (h : doneGatheringIce st id = true) :
    jhas st.dataConnections id = true := by
  by_contra hc
  rw [doneGathering_of_not_has st id (by simpa using hc)] at h
  simp at h

theorem jdel_idem {α : Type} (m : JMap α) (k : String) :
    jdel (jdel m k) k = jdel m k :=
  jdel_of_not_has _ _ (jhas_jdel_self m k)

/-- C1 (failing-input evaluation): on a registry where a data peer
"bob" exists, `createDataChannel("bob", "audio", false)` does create
and return a native channel, yet leaves the registry unchanged, so
`doesPeerChannelExist("bob", "audio")` stays false: the source never
stores the created channel in `dataChannels` (no `handleDataChannel`
call), contradicting the documented create/use/close channel workflow. -/
theorem createDataChannel_not_listed :
    (createDataChannel (getDataConnection initState "bob").2
        "bob" "audio" false).1.isSome = true ∧
    (createDataChannel (getDataConnection initState "bob").2
        "bob" "audio" false).2 = (getDataConnection initState "bob").2 ∧
    doesPeerChannelExist
      (createDataChannel (getDataConnection initState "bob").2
        "bob" "audio" false).2 "bob" "audio" = false := by
  decide

/-- C2: get-or-create is idempotent and keeps at most one connection
per (mode, id): a second `getDataConnection` call returns the identical
handle and state; a second `getVoiceConnection` call (when the first
left the connection registered: setup off or microphone granted)
returns the identical handle and state regardless of its own flags; and
key-uniqueness of both connection registries is preserved by every
registry operation. -/
theorem getOrCreate_idempotent (st : OmegaRTC) (id : String)
    (setup micOk setup' micOk' : Bool) (op : Op)
    (hvoice : setup = false ∨ micOk = true) (huniq : UniqueKeys st) :
    getDataConnection (getDataConnection st id).2 id =
      getDataConnection st id ∧
    getVoiceConnection (getVoiceConnection st id setup micOk).2 id
        setup' micOk' = getVoiceConnection st id setup micOk ∧
    UniqueKeys (step op st) := by
  refine ⟨?_, ?_, uniqueKeys_step op st huniq⟩
  · by_cases hh : jhas st.dataConnections id = true
    · simp [getDataConnection, hh]
    · have hh' : jhas st.dataConnections id = false := by simpa using hh
      simp [getDataConnection, handleDataChannel, hh', jhas_jset_self,
        jget_jset_self]
  · by_cases hh : jhas st.voiceConnections id = true
    · simp [getVoiceConnection, hh]
    · have hh' : jhas st.voiceConnections id = false := by simpa using hh
      rcases hvoice with hs | hm
      · subst hs
        simp [getVoiceConnection, hh', jhas_jset_self, jget_jset_self]
      · subst hm
        cases setup <;>
          simp [getVoiceConnection, setupVoiceConnection, hh',
            jhas_jset_self, jget_jset_self]

/-- C2 witness. -/
theorem getOrCreate_idempotent_witness :
    getDataConnection (getDataConnection initState "bob").2 "bob" =
      getDataConnection initState "bob" ∧
    getVoiceConnection (getVoiceConnection initState "bob" false false).2
        "bob" true true = getVoiceConnection initState "bob" false false ∧
    UniqueKeys (step (Op.opGetData "bob") initState) :=
  getOrCreate_idempotent initState "bob" false false true true
    (Op.opGetData "bob") (Or.inl rfl) (by decide)

/-- C3: immediately after a DATA connection is created for a fresh id,
the channel labelled "default" exists for that id and is ordered
(created as `ordered: true`); and when the default channel's `onclose`
handler runs, the whole connection is removed from the registry
(`closeDataConnection` runs) and the `{id}_closed` event fires. -/
theorem defaultChannel_lifecycle (st : OmegaRTC) (id : String)
    (hfresh : jhas st.dataConnections id = false) :
    doesPeerChannelExist (getDataConnection st id).2 id "default" = true ∧
    jget ((jget (getDataConnection st id).2.dataChannels id).getD [])
      "default" = some defaultChannel ∧
    defaultChannel.ordered = true ∧
    jhas (onChannelClose (getDataConnection st id).2 id
      "default").dataConnections id = false ∧
    (id ++ "_closed") ∈
      (onChannelClose (getDataConnection st id).2 id
        "default").firedEvents := by
  have hfresh' : (jget st.dataConnections id).isSome = false := by
    simpa [jhas] using hfresh
  refine ⟨?_, ?_, rfl, ?_, ?_⟩
  · simp [getDataConnection, handleDataChannel, doesPeerChannelExist,
      hfresh', jhas_jupdate, jhas_jset_self, jget_jupdate_self,
      jget_jset_self, jhas, jget, jupdate]
  · simp [getDataConnection, handleDataChannel, hfresh', jget_jupdate_self,
      jget_jset_self, jget, jhas, jupdate]
  · simp [onChannelClose, fire, closeDataConnection, jhas_jdel_self]
  · simp [onChannelClose, fire, closeDataConnection, getDataConnection,
      handleDataChannel, hfresh]

/-- C3 witness. -/
theorem defaultChannel_lifecycle_witness :
    doesPeerChannelExist (getDataConnection initState "bob").2 "bob"
      "default" = true ∧
    jget ((jget (getDataConnection initState "bob").2.dataChannels
      "bob").getD []) "default" = some defaultChannel ∧
    defaultChannel.ordered = true ∧
    jhas (onChannelClose (getDataConnection initState "bob").2 "bob"
      "default").dataConnections "bob" = false ∧
    ("bob" ++ "_closed") ∈
      (onChannelClose (getDataConnection initState "bob").2 "bob"
        "default").firedEvents :=
  defaultChannel_lifecycle initState "bob" (by decide)

/-- C4: `closeDataConnection` and `closeVoiceConnection` are idempotent:
on an id absent from the registry they are no-ops returning the state
unchanged (both are total functions, so nothing is raised), and a
second close immediately after a first one is always a no-op. -/
theorem closeConnection_idempotent (st : OmegaRTC) (id : String)
    (hd : jhas st.dataConnections id = false)
    (hdc : jhas st.dataChannels id = false)
    (hds : jhas st.dataStorage id = false)
    (hdi : jhas st.dataIceCandidates id = false)
    (hdd : jhas st.dataIceDone id = false)
    (hv : jhas st.voiceConnections id = false)
    (hvs : jhas st.voiceStreams id = false)
    (hvi : jhas st.voiceIceCandidates id = false)
    (hvd : jhas st.voiceIceDone id = false) :
    closeDataConnection st id = st ∧
    closeVoiceConnection st id = st ∧
    (∀ st' : OmegaRTC, closeDataConnection (closeDataConnection st' id) id
      = closeDataConnection st' id) ∧
    (∀ st' : OmegaRTC, closeVoiceConnection (closeVoiceConnection st' id) id
      = closeVoiceConnection st' id) := by
  refine ⟨?_, ?_, ?_, ?_⟩
  · simp [closeDataConnection, jdel_of_not_has _ _ hd,
      jdel_of_not_has _ _ hdc, jdel_of_not_has _ _ hds,
      jdel_of_not_has _ _ hdi, jdel_of_not_has _ _ hdd]
  · simp [closeVoiceConnection, jdel_of_not_has _ _ hv,
      jdel_of_not_has _ _ hvs, jdel_of_not_has _ _ hvi,
      jdel_of_not_has _ _ hvd]
  · intro st'
    simp [closeDataConnection, jdel_idem]
  · intro st'
    simp [closeVoiceConnection, jdel_idem]

/-- C4 witness. -/
theorem closeConnection_idempotent_witness :
    closeDataConnection initState "bob" = initState ∧
    closeVoiceConnection initState "bob" = initState ∧
    (∀ st' : OmegaRTC, closeDataConnection (closeDataConnection st' "bob")
      "bob" = closeDataConnection st' "bob") ∧
    (∀ st' : OmegaRTC, closeVoiceConnection (closeVoiceConnection st' "bob")
      "bob" = closeVoiceConnection st' "bob") :=
  closeConnection_idempotent initState "bob" (by decide) (by decide)
    (by decide) (by decide) (by decide) (by decide) (by decide) (by decide)
    (by decide)

/-- C5 counterexample: applying a remote answer in data mode (0) for an
id with no existing connection does not leave the registry unchanged:
`getConnectionObject` get-or-creates, so a fresh data connection for
the id appears in the registry. -/
theorem handleAnswer_creates_connection :
    jhas initState.dataConnections "alice" = false ∧
    jhas (handleAnswer initState "alice" 0).dataConnections "alice"
      = true := by
  decide

/-- C5 (amended): for voice mode (1) — where the thrown missing-setup
error is caught and only logged — and for any invalid mode,
`handleAnswer` leaves the registry unchanged and throws nothing to the
caller; for data mode (0) on an absent id it instead registers a fresh
data connection for that id. -/
theorem handleAnswer_behavior (st : OmegaRTC) (id : String) (mode : Int)
    (hmode : mode ≠ 0) (hfresh : jhas st.dataConnections id = false) :
    handleAnswer st id mode = st ∧
    jhas (handleAnswer st id 0).dataConnections id = true := by
  constructor
  · unfold handleAnswer getConnectionObject
    by_cases h1 : mode = 1
    · simp [hmode, h1]
    · simp [hmode, h1]
  · unfold handleAnswer getConnectionObject
    simp [getDataConnection, handleDataChannel, hfresh, jhas_jset_self]

/-- C5 witness (for the amended claim). -/
theorem handleAnswer_behavior_witness :
    handleAnswer initState "alice" 1 = initState ∧
    jhas (handleAnswer initState "alice" 0).dataConnections "alice"
      = true :=
  handleAnswer_behavior initState "alice" 1 (by decide) (by decide)

/-- C6: for a data connection, `doneGatheringIce` is false immediately
after creation; it can switch from false to true only through the data
`onicecandidate` callback reporting gathering state complete for that
id; and as long as the connection still exists after an operation, the
flag never reverts from true to false. -/
theorem iceGatheringDone_lifecycle (st : OmegaRTC) (id : String) (op : Op)
    (hfresh : jhas st.dataConnections id = false) :
    doneGatheringIce (getDataConnection st id).2 id = false ∧
    (∀ st1 : OmegaRTC,
      doneGatheringIce st1 id = false →
      doneGatheringIce (step op st1) id = true →
      ∃ c, op = Op.opDataIce id c GatheringState.complete) ∧
    (∀ st1 : OmegaRTC,
      doneGatheringIce st1 id = true →
      jhas (step op st1).dataConnections id = true →
      doneGatheringIce (step op st1) id = true) := by
  refine ⟨?_, ?_, ?_⟩
  · simp [getDataConnection, handleDataChannel, doneGatheringIce, hfresh,
      jhas_jset_self, jget_jset_self]
  · intro st1 hf ht
    by_cases hex : ∃ c, op = Op.opDataIce id c GatheringState.complete
    · exact hex
    · push_neg at hex
      rcases doneGathering_step op st1 id hex with h | h | h
      · rw [h, hf] at ht
        exact absurd ht (by simp)
      · rw [doneGathering_of_not_has _ _ h] at ht
        exact absurd ht (by simp)
      · rw [h.2] at ht
        exact absurd ht (by simp)
  · intro st1 htrue hafter
    by_cases hex : ∃ c, op = Op.opDataIce id c GatheringState.complete
    · obtain ⟨c, rfl⟩ := hex
      have hconn : jhas st1.dataConnections id = true := by
        cases c <;>
          simpa [step, onDataIceCandidate, fire, jupdate] using hafter
      cases c with
      | none =>
        simp [step, onDataIceCandidate, fire, doneGatheringIce, hconn,
          jget_jset_self]
      | some cc =>
        simp [step, onDataIceCandidate, fire, doneGatheringIce, hconn,
          jget_jset_self, jhas_jupdate, jupdate]
    · push_neg at hex
      rcases doneGathering_step op st1 id hex with h | h | h
      · rw [h]; exact htrue
      · rw [h] at hafter
        exact absurd hafter (by simp)
      · rw [has_of_doneGathering st1 id htrue] at h
        exact absurd h.1 (by simp)

/-- C6 witness. -/
theorem iceGatheringDone_lifecycle_witness :
    doneGatheringIce (getDataConnection initState "bob").2 "bob" = false ∧
    (∃ c, Op.opDataIce "bob" none GatheringState.complete
      = Op.opDataIce "bob" c GatheringState.complete) ∧
    doneGatheringIce
      (step (Op.opDataIce "bob" none GatheringState.complete)
        (step (Op.opDataIce "bob" none GatheringState.complete)
          (getDataConnection initState "bob").2)) "bob" = true := by
  have h := iceGatheringDone_lifecycle initState "bob"
    (Op.opDataIce "bob" none GatheringState.complete) (by decide)
  exact ⟨h.1,
    h.2.1 (getDataConnection initState "bob").2 (by decide) (by decide),
    h.2.2 (step (Op.opDataIce "bob" none GatheringState.complete)
      (getDataConnection initState "bob").2) (by decide) (by decide)⟩

/-- C8: sending on an unknown peer or on a label not registered for the
peer is a silent no-op: `sendData` returns without reaching
`chan.send`, the registry state is returned unchanged, and nothing is
raised (the operation is total). -/
theorem sendData_silent_noop (st : OmegaRTC) (id label data : String)
    (wait : Bool)
    (h : jhas st.dataChannels id = false ∨
      jhas ((jget st.dataChannels id).getD []) label = false) :
    sendData st id label data wait = (st, false) := by
  rcases h with h | h
  · simp [sendData, h]
  · by_cases h2 : jhas st.dataChannels id = true
    · simp [sendData, h2, h]
    · have h2' : jhas st.dataChannels id = false := by simpa using h2
      simp [sendData, h2']

/-- C8 witness. -/
theorem sendData_silent_noop_witness :
    sendData initState "bob" "default" "hello" false = (initState, false) :=
  sendData_silent_noop initState "bob" "default" "hello" false
    (Or.inl (by decide))

/-- C9: the five data-mode maps (`dataConnections`, `dataChannels`,
`dataStorage`, `dataIceCandidates`, `dataIceDone`) always hold exactly
the same peer ids: the constructor state is synchronized, every
registry operation preserves the synchronization (native ICE callbacks
being delivered only for live connections), and under it an id is a
key of one map iff it is a key of all of them. -/
theorem dataMaps_synchronized (st : OmegaRTC) (op : Op)
    (hl : OpDelivers op st) (h : DataKeysSynced st) :
    DataKeysSynced initState ∧
    DataKeysSynced (step op st) ∧
    (∀ id2 : String,
      jhas (step op st).dataChannels id2
        = jhas (step op st).dataConnections id2 ∧
      jhas (step op st).dataStorage id2
        = jhas (step op st).dataConnections id2 ∧
      jhas (step op st).dataIceCandidates id2
        = jhas (step op st).dataIceDone id2) := by
  have hs := dataSynced_step op st hl h
  obtain ⟨g1, g2, g3, g4⟩ := hs
  refine ⟨by decide, ⟨g1, g2, g3, g4⟩, ?_⟩
  intro id2
  exact ⟨jhas_eq_of_jkeys_eq _ _ id2 g1,
    jhas_eq_of_jkeys_eq _ _ id2 g2,
    jhas_eq_of_jkeys_eq _ _ id2 (g3.trans g4.symm)⟩

/-- C9 witness. -/
theorem dataMaps_synchronized_witness :
    DataKeysSynced initState ∧
    DataKeysSynced (step (Op.opGetData "bob") initState) ∧
    (∀ id2 : String,
      jhas (step (Op.opGetData "bob") initState).dataChannels id2
        = jhas (step (Op.opGetData "bob") initState).dataConnections id2 ∧
      jhas (step (Op.opGetData "bob") initState).dataStorage id2
        = jhas (step (Op.opGetData "bob") initState).dataConnections id2 ∧
      jhas (step (Op.opGetData "bob") initState).dataIceCandidates id2
        = jhas (step (Op.opGetData "bob") initState).dataIceDone id2) :=
  dataMaps_synchronized initState (Op.opGetData "bob") True.intro
    (by decide)

/-- C10: `allIceCandidates(id, mode)` returns the empty list whenever
the connection of that mode is absent, the mode is neither 0 nor 1, or
the ICE done flag for the id is not set — even if candidates have been
accumulated — and returns the accumulated candidate list exactly when
the connection exists and the done flag is true. -/
theorem allIceCandidates_gated (st : OmegaRTC) (id : String) (mode : Int) :
    (jhas st.dataConnections id = false → allIceCandidates st id 0 = []) ∧
    (jhas st.voiceConnections id = false → allIceCandidates st id 1 = []) ∧
    (mode ≠ 0 → mode ≠ 1 → allIceCandidates st id mode = []) ∧
    ((jget st.dataIceDone id).getD false = false →
      allIceCandidates st id 0 = []) ∧
    ((jget st.voiceIceDone id).getD false = false →
      allIceCandidates st id 1 = []) ∧
    (jhas st.dataConnections id = true →
      (jget st.dataIceDone id).getD false = true →
      allIceCandidates st id 0 = (jget st.dataIceCandidates id).getD []) ∧
    (jhas st.voiceConnections id = true →
      (jget st.voiceIceDone id).getD false = true →
      allIceCandidates st id 1 = (jget st.voiceIceCandidates id).getD []) := by
  refine ⟨?_, ?_, ?_, ?_, ?_, ?_, ?_⟩
  · intro h; simp [allIceCandidates, h]
  · intro h; simp [allIceCandidates, h]
  · intro h0 h1; simp [allIceCandidates, h0, h1]
  · intro h; simp [allIceCandidates, h]
  · intro h; simp [allIceCandidates, h]
  · intro h0 h1; simp [allIceCandidates, h0, h1]
  · intro h0 h1; simp [allIceCandidates, h0, h1]

/-- C10 witness. -/
theorem allIceCandidates_gated_witness :
    allIceCandidates initState "bob" 0 = [] ∧
    allIceCandidates initState "bob" 2 = [] ∧
    allIceCandidates
      (step (Op.opDataIce "bob" (some "candA") GatheringState.complete)
        (getDataConnection initState "bob").2) "bob" 0
      = (jget (step (Op.opDataIce "bob" (some "candA")
            GatheringState.complete)
          (getDataConnection initState "bob").2).dataIceCandidates
          "bob").getD [] := by
  refine ⟨(allIceCandidates_gated initState "bob" 0).1 (by decide), ?_, ?_⟩
  · exact (allIceCandidates_gated initState "bob" 2).2.2.1 (by decide)
      (by decide)
  · exact (allIceCandidates_gated
      (step (Op.opDataIce "bob" (some "candA") GatheringState.complete)
        (getDataConnection initState "bob").2) "bob" 0).2.2.2.2.2.1
      (by decide) (by decide)

end OmegaRTC

theorem expectLit_append (lit rest : List Char) :
    expectLit lit (lit ++ rest) = some rest := by
  induction lit with
  | nil => rfl
  | cons c cs ih => simp [expectLit, ih]

theorem hexVal_digitChar : ∀ k, k < 16 → hexVal (Nat.digitChar k) = some k := by
  decide

theorem parseStrBody_quote (cs : List Char) :
    parseStrBody ('"' :: cs) = some ([], cs) := by
  unfold parseStrBody
  simp

theorem parseStrBody_esc (e u : Char) (cs s r : List Char)
    (he : e ≠ 'u') (hu : unescapeCode e = some u)
    (hp : parseStrBody cs = some (s, r)) :
    parseStrBody ('\\' :: e :: cs) = some (u :: s, r) := by
  unfold parseStrBody
  simp [he, hu, hp]

theorem parseStrBody_u (c1 c2 c3 c4 : Char) (a1 a2 a3 a4 : Nat)
    (cs s r : List Char)
    (h1 : hexVal c1 = some a1) (h2 : hexVal c2 = some a2)
    (h3 : hexVal c3 = some a3) (h4 : hexVal c4 = some a4)
    (hp : parseStrBody cs = some (s, r)) :
    parseStrBody ('\\' :: 'u' :: c1 :: c2 :: c3 :: c4 :: cs)
      = some (Char.ofNat (((a1 * 16 + a2) * 16 + a3) * 16 + a4) :: s, r) := by
  unfold parseStrBody
  simp [h1, h2, h3, h4, hp]

theorem parseStrBody_lit (c : Char) (cs s r : List Char)
    (h1 : c ≠ '"') (h2 : c ≠ '\\') (h8 : ¬ c.toNat < 32)
    (hp : parseStrBody cs = some (s, r)) :
    parseStrBody (c :: cs) = some (c :: s, r) := by
  unfold parseStrBody
  simp [h1, h2, h8, hp]

theorem parseStrBody_round (l rest : List Char) :
    parseStrBody (escString l ++ '"' :: rest) = some (l, rest) := by
  induction l with
  | nil => simpa [escString] using parseStrBody_quote rest
  | cons c cs ih =>
    by_cases h1 : c = '"'
    · subst h1
      rw [show escString ('"' :: cs) ++ '"' :: rest
          = '\\' :: '"' :: (escString cs ++ '"' :: rest) by
        simp [escString, escChar]]
      exact parseStrBody_esc _ _ _ _ _ (by decide) (by decide) ih
    · by_cases h2 : c = '\\'
      · subst h2
        rw [show escString ('\\' :: cs) ++ '"' :: rest
            = '\\' :: '\\' :: (escString cs ++ '"' :: rest) by
          simp [escString, escChar]]
        exact parseStrBody_esc _ _ _ _ _ (by decide) (by decide) ih
      · by_cases h3 : c = Char.ofNat 8
        · subst h3
          rw [show escString (Char.ofNat 8 :: cs) ++ '"' :: rest
              = '\\' :: 'b' :: (escString cs ++ '"' :: rest) by
            simp [escString, escChar]]
          exact parseStrBody_esc _ _ _ _ _ (by decide) (by decide) ih
        · by_cases h4 : c = Char.ofNat 9
          · subst h4
            rw [show escString (Char.ofNat 9 :: cs) ++ '"' :: rest
                = '\\' :: 't' :: (escString cs ++ '"' :: rest) by
              simp [escString, escChar]]
            exact parseStrBody_esc _ _ _ _ _ (by decide) (by decide) ih
          · by_cases h5 : c = Char.ofNat 10
            · subst h5
              rw [show escString (Char.ofNat 10 :: cs) ++ '"' :: rest
                  = '\\' :: 'n' :: (escString cs ++ '"' :: rest) by
                simp [escString, escChar]]
              exact parseStrBody_esc _ _ _ _ _ (by decide) (by decide) ih
            · by_cases h6 : c = Char.ofNat 12
              · subst h6
                rw [show escString (Char.ofNat 12 :: cs) ++ '"' :: rest
                    = '\\' :: 'f' :: (escString cs ++ '"' :: rest) by
                  simp [escString, escChar]]
                exact parseStrBody_esc _ _ _ _ _ (by decide) (by decide) ih
              · by_cases h7 : c = Char.ofNat 13
                · subst h7
                  rw [show escString (Char.ofNat 13 :: cs) ++ '"' :: rest
                      = '\\' :: 'r' :: (escString cs ++ '"' :: rest) by
                    simp [escString, escChar]]
                  exact parseStrBody_esc _ _ _ _ _ (by decide) (by decide) ih
                · by_cases h8 : c.toNat < 32
                  · rw [show escString (c :: cs) ++ '"' :: rest
                        = '\\' :: 'u' :: '0' :: '0' ::
                          Nat.digitChar (c.toNat / 16) ::
                          Nat.digitChar (c.toNat % 16) ::
                          (escString cs ++ '"' :: rest) by
                      simp [escString, escChar, h1, h2, h3, h4, h5, h6, h7,
                        h8]]
                    rw [parseStrBody_u '0' '0' _ _ 0 0 (c.toNat / 16)
                      (c.toNat % 16) _ _ _ (by decide) (by decide)
                      (hexVal_digitChar _ (by omega))
                      (hexVal_digitChar _ (by omega)) ih]
                    have hval : ((0 * 16 + 0) * 16 + c.toNat / 16) * 16
                        + c.toNat % 16 = c.toNat := by omega
                    rw [hval, Char.ofNat_toNat]
                  · rw [show escString (c :: cs) ++ '"' :: rest
                        = c :: (escString cs ++ '"' :: rest) by
                      simp [escString, escChar, h1, h2, h3, h4, h5, h6, h7,
                        h8]]
                    exact parseStrBody_lit _ _ _ _ h1 h2 h8 ih

theorem parseJString_round (s : String) (rest : List Char) :
    parseJString (jsonQuote s ++ rest) = some (s, rest) := by
  have harr : jsonQuote s ++ rest = '"' :: (escString s.data ++ '"' :: rest) := by
    simp [jsonQuote]
  rw [harr]
  simp [parseJString, parseStrBody_round]

theorem digitChar_isDigit : ∀ k, k < 10 → (Nat.digitChar k).isDigit = true := by
  decide

theorem digitChar_val : ∀ k, k < 10 → (Nat.digitChar k).toNat - 48 = k := by
  decide

theorem digitChar_ne_dash : ∀ k, k < 10 → Nat.digitChar k ≠ '-' := by
  decide

theorem digitChar_ne_n : ∀ k, k < 10 → Nat.digitChar k ≠ 'n' := by
  decide

theorem natDigits_head : ∀ n : Nat, ∃ k ds, k < 10 ∧
    natDigits n = Nat.digitChar k :: ds := by
  intro n
  induction n using Nat.strong_induction_on with
  | _ n ih =>
    by_cases h : n < 10
    · exact ⟨n, [], h, by rw [natDigits]; simp [h]⟩
    · obtain ⟨k, ds, hk, hds⟩ := ih (n / 10)
        (Nat.div_lt_self (by omega) (by omega))
      refine ⟨k, ds ++ [Nat.digitChar (n % 10)], hk, ?_⟩
      rw [natDigits]
      simp [h, hds]

theorem digitsToNatAux_stop (v : Nat) (r : List Char)
    (h : r = [] ∨ ∃ c cs, r = c :: cs ∧ c.isDigit = false) :
    digitsToNatAux r v = (v, r) := by
  rcases h with h | ⟨c, cs, rfl, hc⟩
  · subst h; rfl
  · simp [digitsToNatAux, hc]

theorem digitsToNatAux_natDigits (n : Nat) : ∀ (acc : Nat) (rest : List Char),
    digitsToNatAux (natDigits n ++ rest) acc
      = digitsToNatAux rest (acc * 10 ^ (natDigits n).length + n) := by
  induction n using Nat.strong_induction_on with
  | _ n ih =>
    intro acc rest
    by_cases h : n < 10
    · rw [natDigits]
      simp only [h, dite_true]
      simp [digitsToNatAux, digitChar_isDigit n h, digitChar_val n h]
    · have hdix := ih (n / 10) (Nat.div_lt_self (by omega) (by omega))
      rw [natDigits]
      simp only [h, dite_false]
      rw [List.append_assoc, hdix]
      simp [digitsToNatAux, digitChar_isDigit (n % 10) (by omega),
        digitChar_val (n % 10) (by omega), pow_succ]
      ring_nf
      congr 1
      omega

theorem parseJNat_round (n : Nat) (rest : List Char)
    (h : rest = [] ∨ ∃ c cs, rest = c :: cs ∧ c.isDigit = false) :
    parseJInt (natDigits n ++ rest) = some ((n : Int), rest) := by
  obtain ⟨k, ds, hk, hds⟩ := natDigits_head n
  have hds' : Nat.digitChar k :: (ds ++ rest) = natDigits n ++ rest := by
    rw [hds]; simp
  have hchain : digitsToNatAux (natDigits n ++ rest) 0
      = digitsToNatAux rest n := by
    rw [digitsToNatAux_natDigits]
    simp
  have hstep : digitsToNatAux (ds ++ rest) ((Nat.digitChar k).toNat - 48)
      = (n, rest) := by
    have h0 : digitsToNatAux (Nat.digitChar k :: (ds ++ rest)) 0
        = digitsToNatAux (ds ++ rest) ((Nat.digitChar k).toNat - 48) := by
      simp [digitsToNatAux, digitChar_isDigit k hk]
    rw [← h0, hds', hchain, digitsToNatAux_stop n rest h]
  rw [← hds']
  simp [parseJInt, digitChar_ne_dash k hk, digitChar_isDigit k hk, hstep]

theorem parseJInt_round (n : Int) (rest : List Char)
    (h : rest = [] ∨ ∃ c cs, rest = c :: cs ∧ c.isDigit = false) :
    parseJInt (intDigits n ++ rest) = some (n, rest) := by
  by_cases hn : n < 0
  · obtain ⟨k, ds, hk, hds⟩ := natDigits_head n.natAbs
    have hds' : Nat.digitChar k :: (ds ++ rest) = natDigits n.natAbs ++ rest := by
      rw [hds]; simp
    have hchain : digitsToNatAux (natDigits n.natAbs ++ rest) 0
        = digitsToNatAux rest n.natAbs := by
      rw [digitsToNatAux_natDigits]; simp
    have hstep : digitsToNatAux (ds ++ rest) ((Nat.digitChar k).toNat - 48)
        = (n.natAbs, rest) := by
      have h0 : digitsToNatAux (Nat.digitChar k :: (ds ++ rest)) 0
          = digitsToNatAux (ds ++ rest) ((Nat.digitChar k).toNat - 48) := by
        simp [digitsToNatAux, digitChar_isDigit k hk]
      rw [← h0, hds', hchain, digitsToNatAux_stop n.natAbs rest h]
    have harr : intDigits n ++ rest
        = '-' :: (Nat.digitChar k :: (ds ++ rest)) := by
      simp [intDigits, hn, hds]
    have hneg : -((n.natAbs : Nat) : Int) = n := by omega
    rw [harr]
    simp only [parseJInt, digitChar_isDigit k hk, if_true, hstep, hneg]
  · have harr : intDigits n ++ rest = natDigits n.toNat ++ rest := by
      simp [intDigits, hn]
    have hcast : ((n.toNat : Nat) : Int) = n := by omega
    rw [harr, parseJNat_round n.toNat rest h, hcast]

theorem expectLit_single (c : Char) (cs : List Char) :
    expectLit [c] (c :: cs) = some cs := by
  simp [expectLit]

theorem expectLit_null_fail (c : Char) (cs : List Char) (h : c ≠ 'n') :
    expectLit ['n', 'u', 'l', 'l'] (c :: cs) = none := by
  simp [expectLit, h]

theorem parseOptStr_round (o : Option String) (rest : List Char) :
    parseOptStr (jsonOptStr o ++ rest) = some (o, rest) := by
  cases o with
  | none =>
    have h1 : expectLit ['n', 'u', 'l', 'l'] (jsonOptStr none ++ rest)
        = some rest := expectLit_append ['n', 'u', 'l', 'l'] rest
    simp only [parseOptStr, h1]
  | some s =>
    have hfail : expectLit ['n', 'u', 'l', 'l'] (jsonOptStr (some s) ++ rest)
        = none := by
      have : jsonOptStr (some s) ++ rest
          = '"' :: (escString s.data ++ '"' :: rest) := by
        simp [jsonOptStr, jsonQuote]
      rw [this]
      exact expectLit_null_fail '"' _ (by decide)
    have hstr : parseJString (jsonOptStr (some s) ++ rest)
        = some (s, rest) := parseJString_round s rest
    simp only [parseOptStr, hfail, hstr]

theorem intDigits_head (n : Int) : ∃ c cs', intDigits n = c :: cs' ∧ c ≠ 'n' := by
  by_cases hn : n < 0
  · exact ⟨'-', natDigits n.natAbs, by simp [intDigits, hn], by decide⟩
  · obtain ⟨k, ds, hk, hds⟩ := natDigits_head n.toNat
    exact ⟨Nat.digitChar k, ds, by simp [intDigits, hn, hds],
      digitChar_ne_n k hk⟩

theorem parseOptInt_round (o : Option Int) (rest : List Char)
    (h : rest = [] ∨ ∃ c cs, rest = c :: cs ∧ c.isDigit = false) :
    parseOptInt (jsonOptInt o ++ rest) = some (o, rest) := by
  cases o with
  | none =>
    have h1 : expectLit ['n', 'u', 'l', 'l'] (jsonOptInt none ++ rest)
        = some rest := expectLit_append ['n', 'u', 'l', 'l'] rest
    simp only [parseOptInt, h1]
  | some n =>
    obtain ⟨c, cs', hc, hcn⟩ := intDigits_head n
    have hfail : expectLit ['n', 'u', 'l', 'l'] (jsonOptInt (some n) ++ rest)
        = none := by
      rw [show jsonOptInt (some n) ++ rest = c :: (cs' ++ rest) by
        simp [jsonOptInt, hc]]
      exact expectLit_null_fail c _ hcn
    have hint : parseJInt (jsonOptInt (some n) ++ rest) = some (n, rest) :=
      parseJInt_round n rest h
    simp only [parseOptInt, hfail, hint]

theorem parseDesc_round (d : SessionDesc) (rest : List Char) :
    parseDesc (stringifyDesc d ++ rest) = some (d, rest) := by
  have h1 : stringifyDesc d ++ rest
      = ('{' :: jsonQuote "type" ++ [':']) ++ (jsonQuote d.descType ++
        ((',' :: jsonQuote "sdp" ++ [':']) ++
          (jsonQuote d.sdp ++ '}' :: rest))) := by
    simp [stringifyDesc]
  rw [h1]
  simp only [parseDesc, expectLit_append, parseJString_round,
    expectLit_single]

theorem parseCand_round (c : CandInit) (rest : List Char) :
    parseCand (stringifyCand c ++ rest) = some (c, rest) := by
  have h1 : stringifyCand c ++ rest
      = ('{' :: jsonQuote "candidate" ++ [':']) ++ (jsonQuote c.candidate ++
        ((',' :: jsonQuote "sdpMid" ++ [':']) ++ (jsonOptStr c.sdpMid ++
          ((',' :: jsonQuote "sdpMLineIndex" ++ [':']) ++
            (jsonOptInt c.sdpMLineIndex ++
              ((',' :: jsonQuote "usernameFragment" ++ [':']) ++
                (jsonOptStr c.usernameFragment ++ '}' :: rest))))))) := by
    simp [stringifyCand]
  have hmli : parseOptInt (jsonOptInt c.sdpMLineIndex ++
      ((',' :: jsonQuote "usernameFragment" ++ [':']) ++
        (jsonOptStr c.usernameFragment ++ '}' :: rest)))
      = some (c.sdpMLineIndex,
        (',' :: jsonQuote "usernameFragment" ++ [':']) ++
          (jsonOptStr c.usernameFragment ++ '}' :: rest)) :=
    parseOptInt_round _ _ (Or.inr ⟨',', _, rfl, by decide⟩)
  rw [h1]
  simp only [parseCand, expectLit_append, parseJString_round,
    parseOptStr_round, hmli, expectLit_single]

theorem parseCandsRest_close (fuel : Nat) (cs : List Char) :
    parseCandsRest fuel (']' :: cs) = some ([], cs) := by
  unfold parseCandsRest
  simp

theorem parseCandsRest_comma (fuel : Nat) (cs : List Char) :
    parseCandsRest (fuel + 1) (',' :: cs)
      = match parseCand cs with
        | some (cd, cs2) =>
          match parseCandsRest fuel cs2 with
          | some (l, rest) => some (cd :: l, rest)
          | none => none
        | none => none := by
  conv_lhs => unfold parseCandsRest
  simp

theorem parseCandsRest_round (l : List CandInit) :
    ∀ (fuel : Nat) (rest : List Char),
    (stringifyCandsRest l).length ≤ fuel →
    parseCandsRest fuel (stringifyCandsRest l ++ ']' :: rest)
      = some (l, rest) := by
  induction l with
  | nil =>
    intro fuel rest hf
    simpa [stringifyCandsRest] using parseCandsRest_close fuel rest
  | cons c cs ih =>
    intro fuel rest hf
    have hlen : 1 ≤ fuel := by
      simp [stringifyCandsRest] at hf
      omega
    obtain ⟨fuel', rfl⟩ : ∃ f, fuel = f + 1 :=
      ⟨fuel - 1, by omega⟩
    have harr : stringifyCandsRest (c :: cs) ++ ']' :: rest
        = ',' :: (stringifyCand c ++ (stringifyCandsRest cs ++ ']' :: rest)) := by
      simp [stringifyCandsRest]
    have htail : parseCandsRest fuel' (stringifyCandsRest cs ++ ']' :: rest)
        = some (cs, rest) := by
      apply ih
      simp [stringifyCandsRest] at hf
      omega
    rw [harr, parseCandsRest_comma, parseCand_round]
    simp [htail]

theorem parseCands_round (l : List CandInit) (rest : List Char) :
    parseCands (stringifyCands l ++ rest) = some (l, rest) := by
  cases l with
  | nil => simp [stringifyCands, parseCands]
  | cons c cs =>
    obtain ⟨t, ht⟩ : ∃ t, stringifyCand c = '{' :: t := ⟨_, rfl⟩
    have harr : stringifyCands (c :: cs) ++ rest
        = '[' :: '{' :: (t ++ (stringifyCandsRest cs ++ ']' :: rest)) := by
      simp [stringifyCands, ht]
    have hcand : parseCand ('{' :: (t ++ (stringifyCandsRest cs ++ ']' :: rest)))
        = some (c, stringifyCandsRest cs ++ ']' :: rest) := by
      rw [show ('{' :: (t ++ (stringifyCandsRest cs ++ ']' :: rest)) : List Char)
          = stringifyCand c ++ (stringifyCandsRest cs ++ ']' :: rest) by
        simp [ht]]
      exact parseCand_round c _
    have htail : parseCandsRest
        (stringifyCandsRest cs ++ ']' :: rest).length
        (stringifyCandsRest cs ++ ']' :: rest) = some (cs, rest) := by
      apply parseCandsRest_round
      simp
    rw [harr]
    simp only [parseCands, hcand, htail]
    simp

theorem b64Index_b64Char : ∀ k, k < 64 → b64Index (b64Char k) = some k := by
  decide

theorem b64Char_ne_pad : ∀ k, k < 64 → b64Char k ≠ '=' := by
  decide

theorem atob_btoa_bounded : ∀ (n : Nat) (bs : List Nat), bs.length ≤ n →
    (∀ b ∈ bs, b < 256) → atobBytes (btoaBytes bs) = some bs := by
  intro n
  induction n with
  | zero =>
    intro bs hl h
    have hnil : bs = [] := List.length_eq_zero.mp (Nat.le_zero.mp hl)
    subst hnil
    rfl
  | succ n ih =>
    intro bs hl h
    match bs with
    | [] => rfl
    | [a] =>
      have ha : a < 256 := h a (by simp)
      have i1 := b64Index_b64Char (a / 4) (by omega)
      have i2 := b64Index_b64Char (a % 4 * 16) (by omega)
      simp [btoaBytes, atobBytes, i1, i2]
      omega
    | [a, b] =>
      have ha : a < 256 := h a (by simp)
      have hb : b < 256 := h b (by simp)
      have i1 := b64Index_b64Char (a / 4) (by omega)
      have i2 := b64Index_b64Char (a % 4 * 16 + b / 16) (by omega)
      have i3 := b64Index_b64Char (b % 16 * 4) (by omega)
      have n3 := b64Char_ne_pad (b % 16 * 4) (by omega)
      simp [btoaBytes, atobBytes, i1, i2, i3, n3]
      constructor <;> omega
    | a :: b :: c :: rest =>
      have ha : a < 256 := h a (by simp)
      have hb : b < 256 := h b (by simp)
      have hc : c < 256 := h c (by simp)
      have hrest : atobBytes (btoaBytes rest) = some rest := by
        apply ih rest
        · simp at hl
          omega
        · intro x hx
          exact h x (by simp [hx])
      have i1 := b64Index_b64Char (a / 4) (by omega)
      have i2 := b64Index_b64Char (a % 4 * 16 + b / 16) (by omega)
      have i3 := b64Index_b64Char (b % 16 * 4 + c / 64) (by omega)
      have i4 := b64Index_b64Char (c % 64) (by omega)
      have n3 := b64Char_ne_pad (b % 16 * 4 + c / 64) (by omega)
      have n4 := b64Char_ne_pad (c % 64) (by omega)
      simp [btoaBytes, atobBytes, i1, i2, i3, i4, n3, n4, hrest]
      refine ⟨?_, ?_, ?_⟩ <;> omega

theorem atob_btoa (bs : List Nat) (h : ∀ b ∈ bs, b < 256) :
    atobBytes (btoaBytes bs) = some bs :=
  atob_btoa_bounded bs.length bs le_rfl h

theorem digitChar_lt_256 : ∀ k, k < 16 → (Nat.digitChar k).toNat < 256 := by
  decide

theorem escChar_lt (c : Char) (h : c.toNat < 256) :
    ∀ x ∈ escChar c, x.toNat < 256 := by
  intro x hx
  by_cases h1 : c = '"'
  · subst h1
    simp [escChar] at hx
    rcases hx with rfl | rfl <;> decide
  · by_cases h2 : c = '\\'
    · subst h2
      simp [escChar] at hx
      rcases hx with rfl | rfl <;> decide
    · by_cases h3 : c = Char.ofNat 8
      · subst h3
        simp [escChar] at hx
        rcases hx with rfl | rfl <;> decide
      · by_cases h4 : c = Char.ofNat 9
        · subst h4
          simp [escChar] at hx
          rcases hx with rfl | rfl <;> decide
        · by_cases h5 : c = Char.ofNat 10
          · subst h5
            simp [escChar] at hx
            rcases hx with rfl | rfl <;> decide
          · by_cases h6 : c = Char.ofNat 12
            · subst h6
              simp [escChar] at hx
              rcases hx with rfl | rfl <;> decide
            · by_cases h7 : c = Char.ofNat 13
              · subst h7
                simp [escChar] at hx
                rcases hx with rfl | rfl <;> decide
              · by_cases h8 : c.toNat < 32
                · simp [escChar, h1, h2, h3, h4, h5, h6, h7, h8] at hx
                  rcases hx with rfl | rfl | rfl | rfl | rfl
                  · decide
                  · decide
                  · decide
                  · exact digitChar_lt_256 _ (by omega)
                  · exact digitChar_lt_256 _ (by omega)
                · simp [escChar, h1, h2, h3, h4, h5, h6, h7, h8] at hx
                  subst hx
                  exact h

theorem escString_lt (l : List Char) (h : ∀ c ∈ l, c.toNat < 256) :
    ∀ x ∈ escString l, x.toNat < 256 := by
  induction l with
  | nil => simp [escString]
  | cons c cs ih =>
    intro x hx
    simp [escString] at hx
    rcases hx with hx | hx
    · exact escChar_lt c (h c (by simp)) x hx
    · exact ih (fun d hd => h d (by simp [hd])) x hx

theorem jsonQuote_lt (s : String) (h : Latin1 s) :
    ∀ x ∈ jsonQuote s, x.toNat < 256 := by
  intro x hx
  simp [jsonQuote] at hx
  rcases hx with rfl | hx | rfl
  · decide
  · exact escString_lt s.data h x hx
  · decide

theorem natDigits_lt_256 (n : Nat) : ∀ x ∈ natDigits n, x.toNat < 256 := by
  induction n using Nat.strong_induction_on with
  | _ n ih =>
    intro x hx
    rw [natDigits] at hx
    by_cases h : n < 10
    · simp [h] at hx
      subst hx
      exact digitChar_lt_256 n (by omega)
    · simp [h] at hx
      rcases hx with hx | rfl
      · exact ih (n / 10) (Nat.div_lt_self (by omega) (by omega)) x hx
      · exact digitChar_lt_256 _ (by omega)

theorem intDigits_lt_256 (n : Int) : ∀ x ∈ intDigits n, x.toNat < 256 := by
  intro x hx
  unfold intDigits at hx
  by_cases h : n < 0
  · simp [h] at hx
    rcases hx with rfl | hx
    · decide
    · exact natDigits_lt_256 _ x hx
  · simp [h] at hx
    exact natDigits_lt_256 _ x hx

theorem jsonOptStr_lt (o : Option String) (h : ∀ s, o = some s → Latin1 s) :
    ∀ x ∈ jsonOptStr o, x.toNat < 256 := by
  cases o with
  | none =>
    intro x hx
    simp [jsonOptStr] at hx
    rcases hx with rfl | rfl | rfl | rfl <;> decide
  | some s => exact jsonQuote_lt s (h s rfl)

theorem jsonOptInt_lt (o : Option Int) : ∀ x ∈ jsonOptInt o, x.toNat < 256 := by
  cases o with
  | none =>
    intro x hx
    simp [jsonOptInt] at hx
    rcases hx with rfl | rfl | rfl | rfl <;> decide
  | some n => exact intDigits_lt_256 n

theorem stringifyDesc_lt (d : SessionDesc) (hd : WfDesc d) :
    ∀ x ∈ stringifyDesc d, x.toNat < 256 := by
  intro x hx
  simp [stringifyDesc] at hx
  rcases hx with rfl | hx | rfl | hx | rfl | hx | rfl | hx | rfl
  · decide
  · exact (by decide : ∀ x ∈ jsonQuote "type", x.toNat < 256) x hx
  · decide
  · exact jsonQuote_lt _ hd.1 x hx
  · decide
  · exact (by decide : ∀ x ∈ jsonQuote "sdp", x.toNat < 256) x hx
  · decide
  · exact jsonQuote_lt _ hd.2 x hx
  · decide

theorem stringifyCand_lt (c : CandInit) (hc : WfCand c) :
    ∀ x ∈ stringifyCand c, x.toNat < 256 := by
  intro x hx
  simp [stringifyCand] at hx
  rcases hx with rfl | hx | rfl | hx | rfl | hx | rfl | hx | rfl | hx | rfl
    | hx | rfl | hx | rfl | hx | rfl
  · decide
  · exact (by decide : ∀ x ∈ jsonQuote "candidate", x.toNat < 256) x hx
  · decide
  · exact jsonQuote_lt _ hc.1 x hx
  · decide
  · exact (by decide : ∀ x ∈ jsonQuote "sdpMid", x.toNat < 256) x hx
  · decide
  · exact jsonOptStr_lt _ hc.2.1 x hx
  · decide
  · exact (by decide : ∀ x ∈ jsonQuote "sdpMLineIndex", x.toNat < 256) x hx
  · decide
  · exact jsonOptInt_lt _ x hx
  · decide
  · exact (by decide : ∀ x ∈ jsonQuote "usernameFragment", x.toNat < 256) x hx
  · decide
  · exact jsonOptStr_lt _ hc.2.2 x hx
  · decide

theorem stringifyCandsRest_lt (l : List CandInit)
    (hl : ∀ c ∈ l, WfCand c) :
    ∀ x ∈ stringifyCandsRest l, x.toNat < 256 := by
  induction l with
  | nil => simp [stringifyCandsRest]
  | cons c cs ih =>
    intro x hx
    simp [stringifyCandsRest] at hx
    rcases hx with rfl | hx | hx
    · decide
    · exact stringifyCand_lt c (hl c (by simp)) x hx
    · exact ih (fun d hd => hl d (by simp [hd])) x hx

theorem stringifyCands_lt (l : List CandInit) (hl : ∀ c ∈ l, WfCand c) :
    ∀ x ∈ stringifyCands l, x.toNat < 256 := by
  cases l with
  | nil =>
    intro x hx
    simp [stringifyCands] at hx
    rcases hx with rfl | rfl <;> decide
  | cons c cs =>
    intro x hx
    simp [stringifyCands] at hx
    rcases hx with rfl | hx | hx | rfl
    · decide
    · exact stringifyCand_lt c (hl c (by simp)) x hx
    · exact stringifyCandsRest_lt cs (fun d hd => hl d (by simp [hd])) x hx
    · decide

theorem map_ofNat_toNat (l : List Char) :
    (l.map Char.toNat).map Char.ofNat = l := by
  induction l with
  | nil => rfl
  | cons c cs ih => simp [ih, Char.ofNat_toNat]

theorem decode_encode_desc (d : SessionDesc) (hd : WfDesc d) :
    ∃ s, encodeDesc d = some s ∧ decodeDesc s = some d := by
  have hbound : ∀ x ∈ stringifyDesc d, x.toNat < 256 := stringifyDesc_lt d hd
  have hbytes : ∀ b ∈ (stringifyDesc d).map Char.toNat, b < 256 := by
    intro b hb
    simp [List.mem_map] at hb
    obtain ⟨c, hc, rfl⟩ := hb
    exact hbound c hc
  have hall : ((stringifyDesc d).map Char.toNat).all
      (fun b => decide (b < 256)) = true := by
    rw [List.all_eq_true]
    intro b hb
    simpa using hbytes b hb
  refine ⟨btoaBytes ((stringifyDesc d).map Char.toNat), ?_, ?_⟩
  · simp [encodeDesc, hall]
  · have hatob := atob_btoa ((stringifyDesc d).map Char.toNat) hbytes
    have hparse : parseDesc (stringifyDesc d) = some (d, []) := by
      have := parseDesc_round d []
      rwa [List.append_nil] at this
    simp only [decodeDesc, hatob, map_ofNat_toNat, hparse]

theorem decode_encode_cands (l : List CandInit) (hl : ∀ c ∈ l, WfCand c) :
    ∃ s, encodeCands l = some s ∧ decodeCands s = some l := by
  have hbound : ∀ x ∈ stringifyCands l, x.toNat < 256 := stringifyCands_lt l hl
  have hbytes : ∀ b ∈ (stringifyCands l).map Char.toNat, b < 256 := by
    intro b hb
    simp [List.mem_map] at hb
    obtain ⟨c, hc, rfl⟩ := hb
    exact hbound c hc
  have hall : ((stringifyCands l).map Char.toNat).all
      (fun b => decide (b < 256)) = true := by
    rw [List.all_eq_true]
    intro b hb
    simpa using hbytes b hb
  refine ⟨btoaBytes ((stringifyCands l).map Char.toNat), ?_, ?_⟩
  · simp [encodeCands, hall]
  · have hatob := atob_btoa ((stringifyCands l).map Char.toNat) hbytes
    have hparse : parseCands (stringifyCands l) = some (l, []) := by
      have := parseCands_round l []
      rwa [List.append_nil] at this
    simp only [decodeCands, hatob, map_ofNat_toNat, hparse]

/-- C7: the wire encoding round-trips. For every well-formed (Latin-1,
hence Base64-encodable and JSON-serializable) session description and
candidate list, `btoa(JSON.stringify(x))` succeeds and
`JSON.parse(atob(...))` of the result yields a value equal to `x`, for
both the description shape and the candidate-list shape. -/
theorem wire_codec_roundtrip (d : SessionDesc) (l : List CandInit)
    (hd : WfDesc d) (hl : ∀ c ∈ l, WfCand c) :
    (∃ s, encodeDesc d = some s ∧ decodeDesc s = some d) ∧
    (∃ s, encodeCands l = some s ∧ decodeCands s = some l) :=
  ⟨decode_encode_desc d hd, decode_encode_cands l hl⟩

/-- C7 witness. -/
theorem wire_codec_roundtrip_witness :
    (∃ s, encodeDesc (SessionDesc.mk "offer" "v=0") = some s ∧
      decodeDesc s = some (SessionDesc.mk "offer" "v=0")) ∧
    (∃ s, encodeCands [CandInit.mk "candidate:1" (some "0") (some 0) none]
        = some s ∧
      decodeCands s
        = some [CandInit.mk "candidate:1" (some "0") (some 0) none]) :=
  wire_codec_roundtrip (SessionDesc.mk "offer" "v=0")
    [CandInit.mk "candidate:1" (some "0") (some 0) none]
    (by decide) (by decide)
